import Mathlib

/-! Shallow embedding of `belief_graph.py` (the belief-graph AI-agent engine).

Modelling conventions:
* Python floats are modelled as exact rationals; `round(x, 3)` is modelled by
  `pyRound3` (round half to even on the third decimal, as Python rounds).
* The `networkx.DiGraph` is modelled by insertion-ordered association lists of
  nodes and edges.  `G.add_node` on an existing id overwrites its attributes in
  place, keeping its position; `G.add_edge` silently appends missing endpoints
  as attribute-less (bare) nodes, modelled by a `none` attribute entry, and
  overwrites the relation of an existing edge.
* `str(datetime.now())` timestamps are modelled by a logical clock on the graph.
* Python exceptions (`KeyError` from indexing a missing node or a missing
  attribute) are modelled by `PyResult.keyError`; the unbounded recursion of
  `propagate_effects` is modelled with explicit fuel, `PyResult.fuelOut`
  marking a run that exceeds the given bound (for every bound, if it diverges).
-/

/-- Round half to even to an integer (Python `round` tie-breaking rule). -/
def pyRoundHalfEven (q : ℚ) : ℤ :=
  let f : ℤ := ⌊q⌋
  let r : ℚ := q - (f : ℚ)
  if r < 1/2 then f
  else if 1/2 < r then f + 1
  else if f % 2 = 0 then f else f + 1

/-- Python `round(x, 3)` on floats, modelled over exact rationals. -/
def pyRound3 (q : ℚ) : ℚ := (pyRoundHalfEven (q * 1000) : ℚ) / 1000

/-- The attribute dict a belief node receives in `add_belief`
(`entity`, `predicate`, `value`, `confidence`, `source`, `status`,
`timestamp`). -/
structure NodeData where
  entity : String
  predicate : String
  value : Int
  confidence : ℚ
  source : String
  status : String
  timestamp : Nat
  deriving DecidableEq, Repr

/-- A directed typed edge (`relation` is `"supports"` or `"contradicts"`). -/
structure Edge where
  src : String
  dst : String
  relation : String
  deriving DecidableEq, Repr

/-- The global `networkx.DiGraph` `G`: insertion-ordered nodes (a `none`
attribute entry is a bare node silently created by `G.add_edge`), an
insertion-ordered edge list, and the logical clock used for timestamps. -/
structure Graph where
  nodes : List (String × Option NodeData)
  edges : List Edge
  clock : Nat
  deriving DecidableEq, Repr

def graph0 : Graph := ⟨[], [], 0⟩

/-- Result of running a Python operation: normal return, a raised `KeyError`,
or exceeding the recursion bound. -/
inductive PyResult (α : Type) where
  | ok : α → PyResult α
  | keyError : PyResult α
  | fuelOut : PyResult α
  deriving DecidableEq, Repr

def nodeIds (g : Graph) : List String := g.nodes.map Prod.fst

/-- Looks a node up: `none` = absent, `some none` = bare node,
`some (some d)` = belief node with attributes `d`. -/
def lookupNode (g : Graph) (nid : String) : Option (Option NodeData) :=
  (g.nodes.find? (fun p => p.1 == nid)).map Prod.snd

/-- The attribute record of `nid` when it is a belief node. -/
def dataOf (g : Graph) (nid : String) : Option NodeData :=
  match lookupNode g nid with
  | some (some d) => some d
  | _ => none

def statusOf (g : Graph) (nid : String) : Option String :=
  (dataOf g nid).map NodeData.status

def confOf (g : Graph) (nid : String) : Option ℚ :=
  (dataOf g nid).map NodeData.confidence

/-- The immutable (entity, predicate, value) view of a node. -/
def epvOf (g : Graph) (nid : String) : Option (String × String × Int) :=
  (dataOf g nid).map (fun d => (d.entity, d.predicate, d.value))

def hasNode (g : Graph) (nid : String) : Bool :=
  g.nodes.any (fun p => p.1 == nid)

def hasEdge (g : Graph) (u v : String) : Bool :=
  g.edges.any (fun e => e.src == u && e.dst == v)

/-- The relation of the `(u, v)` edge, if present. -/
def edgeRel (g : Graph) (u v : String) : Option String :=
  (g.edges.find? (fun e => e.src == u && e.dst == v)).map Edge.relation

/-- `G.add_node(nid, **attrs)`: overwrite the attributes of an existing node
in place, else append a fresh node. -/
def pyAddNode (g : Graph) (nid : String) (d : NodeData) : Graph :=
  if hasNode g nid then
    { g with nodes := g.nodes.map (fun p => if p.1 = nid then (p.1, some d) else p) }
  else
    { g with nodes := g.nodes ++ [(nid, some d)] }

/-- `G.add_edge` auto-creates a missing endpoint as a bare node. -/
def ensureNode (g : Graph) (nid : String) : Graph :=
  if hasNode g nid then g else { g with nodes := g.nodes ++ [(nid, none)] }

/-- Overwrites the attribute record of an existing belief node in place.
Callers only use it on ids present in the graph. -/
def setNodeData (g : Graph) (nid : String) (d : NodeData) : Graph :=
  { g with nodes := g.nodes.map (fun p => if p.1 = nid then (p.1, some d) else p) }

/-- `G.nodes[nid]["status"] = s`.  Callers only invoke it on nodes whose
attribute dict is full: their `confidence` was read just before, so the
missing/bare cases (which would raise or create a partial dict in Python)
cannot arise and are left unchanged. -/
def setStatus (g : Graph) (nid : String) (s : String) : Graph :=
  match dataOf g nid with
  | some d => setNodeData g nid { d with status := s }
  | none => g

/-- `G.add_edge(u, v, relation=rel)`: missing endpoints are silently created
as bare nodes; an existing `(u, v)` edge has its relation overwritten in
place, otherwise the edge is appended. -/
def pyAddEdge (g : Graph) (u v rel : String) : Graph :=
  let g1 := ensureNode (ensureNode g u) v
  if hasEdge g1 u v then
    { g1 with edges :=
        g1.edges.map (fun e => if e.src = u ∧ e.dst = v then { e with relation := rel } else e) }
  else
    { g1 with edges := g1.edges ++ [⟨u, v, rel⟩] }

/-- `add_support_edge(parent, child)`. -/
def add_support_edge (g : Graph) (parent child : String) : Graph :=
  pyAddEdge g parent child "supports"

/-- `reduce_confidence(node_id, factor)`: `KeyError` when the node is absent
or bare, else `confidence = round(old * factor, 3)`. -/
def reduce_confidence (g : Graph) (nid : String) (factor : ℚ) : PyResult Graph :=
  match lookupNode g nid with
  | some (some d) =>
      .ok (setNodeData g nid { d with confidence := pyRound3 (d.confidence * factor) })
  | _ => .keyError

/-- The body of the `for _, child, rel in G.out_edges(node_id, ...)` loop of
`propagate_effects`: for each outgoing `supports` edge, decay the child by
0.9 and recurse (`next` is the recursion at the remaining fuel). -/
def propChildren (next : Graph → String → PyResult Graph) :
    List Edge → Graph → PyResult Graph
  | [], g => .ok g
  | e :: rest, g =>
    if e.relation = "supports" then
      match reduce_confidence g e.dst (9/10) with
      | .ok g1 =>
        match next g1 e.dst with
        | .ok g2 => propChildren next rest g2
        | r => r
      | r => r
    else propChildren next rest g

/-- `propagate_effects(node_id)`, fuelled: Python's unbounded recursion
returns `fuelOut` when the nesting depth exceeds the fuel. -/
def propagate_effects : Nat → Graph → String → PyResult Graph
  | 0, _, _ => .fuelOut
  | fuel + 1, g, nid =>
      propChildren (fun g' nid' => propagate_effects fuel g' nid')
        (g.edges.filter (fun e => e.src == nid)) g

/-- `archive_belief(node_id)`: advances `outdated → archived` or
`archived → shadow_history`; raises `KeyError` on a missing node; a bare
node (`.get` returns `None`) is left unchanged. -/
def archive_belief (g : Graph) (nid : String) : PyResult Graph :=
  match lookupNode g nid with
  | none => .keyError
  | some none => .ok g
  | some (some d) =>
    if d.status = "outdated" then .ok (setNodeData g nid { d with status := "archived" })
    else if d.status = "archived" then .ok (setNodeData g nid { d with status := "shadow_history" })
    else .ok g

/-- `self_correct(new_node, old_node)`: pick the winner by confidence (ties
favour `new_node`), force the winner `active`, demote the loser to
`outdated`, decay it by 0.6, propagate along its support chain, and archive
it. -/
def self_correct (fuel : Nat) (g : Graph) (new_node old_node : String) : PyResult Graph :=
  match dataOf g new_node, dataOf g old_node with
  | some dn, some dold =>
    let winner : String := if dold.confidence ≤ dn.confidence then new_node else old_node
    let loser : String := if dold.confidence ≤ dn.confidence then old_node else new_node
    let g2 := setStatus (setStatus g winner "active") loser "outdated"
    match reduce_confidence g2 loser (6/10) with
    | .ok g3 =>
      match propagate_effects fuel g3 loser with
      | .ok g4 => archive_belief g4 loser
      | r => r
    | r => r
  | _, _ => .keyError

/-- The `for node_id, data in G.nodes(data=True)` loop of
`detect_and_handle_contradictions`.  The node list is fixed at entry (no
node is added or removed while the loop runs, since both endpoints of the
recorded edge already exist), but all attribute reads are live. -/
def detect_loop (fuel : Nat) (new_id : String) :
    List String → Graph → PyResult Graph
  | [], g => .ok g
  | nid :: rest, g =>
    if nid = new_id then detect_loop fuel new_id rest g
    else
      match dataOf g nid, dataOf g new_id with
      | some d, some dn =>
        if (d.status = "active" ∨ d.status = "outdated") ∧
            d.entity = dn.entity ∧ d.predicate = dn.predicate ∧ ¬(d.value = dn.value) then
          match self_correct fuel (pyAddEdge g new_id nid "contradicts") new_id nid with
          | .ok g2 => detect_loop fuel new_id rest g2
          | r => r
        else detect_loop fuel new_id rest g
      | _, _ => detect_loop fuel new_id rest g

/-- `detect_and_handle_contradictions(new_node_id)`. -/
def detect_and_handle_contradictions (fuel : Nat) (g : Graph) (new_id : String) :
    PyResult Graph :=
  match lookupNode g new_id with
  | none => .keyError
  | some _ => detect_loop fuel new_id (nodeIds g) g

/-- `add_belief(...)`: creates or overwrites the node, then (with
`auto_check`) runs the contradiction detector. -/
def add_belief (fuel : Nat) (g : Graph) (nid entity predicate : String) (value : Int)
    (confidence : ℚ) (source status : String) (auto_check : Bool) : PyResult Graph :=
  let g1 := { pyAddNode g nid ⟨entity, predicate, value, confidence, source, status, g.clock⟩
                with clock := g.clock + 1 }
  if auto_check then detect_and_handle_contradictions fuel g1 nid else .ok g1

/-- The candidate list of `ask`: active beliefs matching entity and
predicate, in insertion order; indexing a bare node raises `KeyError`. -/
def ask_candidates (entity predicate : String) :
    List (String × Option NodeData) → PyResult (List (String × NodeData))
  | [] => .ok []
  | (_, none) :: _ => .keyError
  | (nid, some d) :: rest =>
    match ask_candidates entity predicate rest with
    | .ok cs =>
      .ok (if d.entity = entity ∧ d.predicate = predicate ∧ d.status = "active"
            then (nid, d) :: cs else cs)
    | r => r

/-- Python `max(xs, key=f)` over `b :: rest`: keeps the first maximum. -/
def pyMaxBy {α : Type} (f : α → ℚ) : α → List α → α
  | b, [] => b
  | b, x :: rest => pyMaxBy f (if f b < f x then x else b) rest

/-- `ask(predicate, entity)`: the value of the highest-confidence active
belief for the pair, `none` when there is no candidate. -/
def ask (g : Graph) (predicate entity : String) : PyResult (Option Int) :=
  match ask_candidates entity predicate g.nodes with
  | .ok [] => .ok none
  | .ok (c :: cs) => .ok (some (pyMaxBy (fun q => q.2.confidence) c cs).2.value)
  | .keyError => .keyError
  | .fuelOut => .fuelOut

/-- `compute_reliability(entity, predicate)`. -/
def compute_reliability (g : Graph) (entity predicate : String) : Option ℚ :=
  let cluster : List (String × NodeData) :=
    g.nodes.filterMap (fun p =>
      match p.2 with
      | some d => if d.entity = entity ∧ d.predicate = predicate then some (p.1, d) else none
      | none => none)
  match cluster with
  | [] => none
  | c :: cs =>
    let active_confs := ((c :: cs).filter (fun p => p.2.status == "active")).map
      (fun p => p.2.confidence)
    let max_conf : ℚ :=
      match active_confs with
      | [] => 0
      | a :: rest => rest.foldl max a
    let distinct : Nat := ((c :: cs).map (fun p => p.2.value)).dedup.length
    let contradictions : Nat := distinct - 1
    some (pyRound3 (max_conf / (1 + (3/10) * (contradictions : ℚ))))

/-! Specification-side definitions, written from the claims' wording, plus
result-extraction helpers and the concrete scenarios the claims mention. -/

/-- Sequencing of engine operations (a raised error aborts the chain). -/
def pyBind (r : PyResult Graph) (f : Graph → PyResult Graph) : PyResult Graph :=
  match r with
  | .ok g => f g
  | .keyError => .keyError
  | .fuelOut => .fuelOut

def resStatus (r : PyResult Graph) (nid : String) : Option String :=
  match r with
  | .ok g => statusOf g nid
  | _ => none

def resConf (r : PyResult Graph) (nid : String) : Option ℚ :=
  match r with
  | .ok g => confOf g nid
  | _ => none

def resEntity (r : PyResult Graph) (nid : String) : Option String :=
  match r with
  | .ok g => (dataOf g nid).map NodeData.entity
  | _ => none

def resAsk (r : PyResult Graph) (predicate entity : String) : PyResult (Option Int) :=
  match r with
  | .ok g => ask g predicate entity
  | .keyError => .keyError
  | .fuelOut => .fuelOut

/-- One forward step of the archival lifecycle from the spec:
`outdated → archived → shadow_history`, anything else unchanged. -/
def stepForward : Option String → Option String
  | some "outdated" => some "archived"
  | some "archived" => some "shadow_history"
  | s => s

/-- A nonempty directed path that follows only `supports` edges of the edge
list `E` (the propagator never follows `contradicts` edges). -/
inductive SuppReachE (E : List Edge) : String → String → Prop where
  | single : ∀ e : Edge, e ∈ E → e.relation = "supports" → SuppReachE E e.src e.dst
  | tail : ∀ (a : String) (e : Edge), SuppReachE E a e.src → e ∈ E →
      e.relation = "supports" → SuppReachE E a e.dst

/-- One downstream decay step of the propagator: `round(old * 0.9, 3)`. -/
def decay9 (q : ℚ) : ℚ := pyRound3 (q * (9/10))

/-- The contradiction condition of the detector, read off a fixed snapshot
`g0`: another node that is `active` or `outdated` with the same entity and
predicate and a different value. -/
def conflict_pair (g0 : Graph) (new_id nid : String) : Bool :=
  match dataOf g0 nid, dataOf g0 new_id with
  | some d, some dn =>
    decide (¬(nid = new_id) ∧ (d.status = "active" ∨ d.status = "outdated") ∧
      d.entity = dn.entity ∧ d.predicate = dn.predicate ∧ ¬(d.value = dn.value))
  | _, _ => false

/-- The snapshot of matches taken at entry to the detector, in store order. -/
def matches_at_entry (g : Graph) (new_id : String) : List String :=
  (nodeIds g).filter (fun nid => conflict_pair g new_id nid)

/-- Record a `contradicts` edge from the new node to the match and resolve. -/
def resolve_pair (fuel : Nat) (new_id nid : String) (g : Graph) : PyResult Graph :=
  self_correct fuel (pyAddEdge g new_id nid "contradicts") new_id nid

def detect_snapshot_loop (fuel : Nat) (new_id : String) :
    List String → Graph → PyResult Graph
  | [], g => .ok g
  | nid :: rest, g =>
    match resolve_pair fuel new_id nid g with
    | .ok g2 => detect_snapshot_loop fuel new_id rest g2
    | r => r

/-- The detector as the claim words it: the match set is the snapshot taken
at entry, and each matching pair is resolved exactly once, in order. -/
def detect_snapshot (fuel : Nat) (g : Graph) (new_id : String) : PyResult Graph :=
  match lookupNode g new_id with
  | none => .keyError
  | some _ => detect_snapshot_loop fuel new_id (matches_at_entry g new_id) g

/-- All beliefs about `(entity, predicate)`, any status (the cluster). -/
def cluster_of (g : Graph) (entity predicate : String) : List NodeData :=
  g.nodes.filterMap (fun p =>
    match p.2 with
    | some d => if d.entity = entity ∧ d.predicate = predicate then some d else none
    | none => none)

/-- Reliability as the claim words it: none on an empty cluster, else
`round(maxActiveConfidence / (1 + 0.3 * contradictions), 3)` where
`maxActiveConfidence` is the maximum confidence over matching `active`
nodes (0.0 if none) and `contradictions = max(0, distinctValues - 1)`
over the whole cluster. -/
def reliability_spec (g : Graph) (entity predicate : String) : Option ℚ :=
  let cluster := cluster_of g entity predicate
  if cluster = [] then none
  else
    let maxActive : ℚ :=
      (((cluster.filter (fun d => d.status == "active")).map NodeData.confidence).max?).getD 0
    let contradictions : ℤ := max 0 (((cluster.map NodeData.value).toFinset.card : ℤ) - 1)
    some (pyRound3 (maxActive / (1 + (3/10) * (contradictions : ℚ))))

/-- The maximal confidence among `ask` candidates (0 on an empty list). -/
def maxConfC (cs : List (String × NodeData)) : ℚ :=
  ((cs.map (fun q => q.2.confidence)).max?).getD 0

/-- The earliest-inserted candidate of maximal confidence. -/
def first_max_candidate (cs : List (String × NodeData)) : Option (String × NodeData) :=
  cs.find? (fun q => decide (maxConfC cs ≤ q.2.confidence))

/-- Applies the downstream decay `k` times to the confidence of a node's
attributes, leaving every other attribute unchanged. -/
def decayMap (k : Nat) (d : NodeData) : NodeData :=
  { d with confidence := decay9^[k] d.confidence }

/-- What a successful propagation from `x` does to the store: the node set,
the edges, the clock, and every attribute except confidences are unchanged,
and each node's confidence is the result of `k` downstream decay steps,
with `k > 0` only for nodes reachable from `x` along `supports` edges. -/
def propPres (E : List Edge) (x : String) (g g2 : Graph) : Prop :=
  g2.edges = g.edges ∧ nodeIds g2 = nodeIds g ∧ g2.clock = g.clock ∧
  ∀ m, ∃ k : Nat, dataOf g2 m = (dataOf g m).map (decayMap k) ∧
    (0 < k → SuppReachE E x m)

/-- The loop-level version of `propPres`, over the remaining edge list. -/
def propPresCh (E : List Edge) (l : List Edge) (g g2 : Graph) : Prop :=
  g2.edges = g.edges ∧ nodeIds g2 = nodeIds g ∧ g2.clock = g.clock ∧
  ∀ m, ∃ k : Nat, dataOf g2 m = (dataOf g m).map (decayMap k) ∧
    (0 < k → ∃ e, e ∈ l ∧ e.relation = "supports" ∧
      (m = e.dst ∨ SuppReachE E e.dst m))

/-! Concrete scenarios. -/

/-- C1 scenario, first add: `p1 = price(Flight123) = 218`, conf 0.82. -/
def c1_g1 : PyResult Graph :=
  add_belief 10 graph0 "p1" "Flight123" "price" 218 (41/50) "API1" "active" true

/-- C1 scenario, second add: `p2 = price(Flight123) = 347`, conf 0.95. -/
def c1_final : PyResult Graph :=
  pyBind c1_g1 (fun g => add_belief 10 g "p2" "Flight123" "price" 347 (19/20) "API2" "active" true)

/-- C2: a first belief with id `x`. -/
def c2_g1 : PyResult Graph := add_belief 10 graph0 "x" "E" "P" 1 (1/2) "s1" "active" true

/-- C2: a second `add_belief` reusing id `x` with different attributes. -/
def c2_final : PyResult Graph :=
  pyBind c2_g1 (fun g => add_belief 10 g "x" "E2" "P2" 2 (3/4) "s2" "active" true)

/-- C3: a support edge between two ids absent from the empty store. -/
def c3_g : Graph := add_support_edge graph0 "a" "b"

/-- C4: a belief inserted directly with status `outdated`. -/
def c4_g1 : PyResult Graph := add_belief 10 graph0 "o" "E" "P" 1 (9/10) "s" "outdated" true

/-- C4: a weaker conflicting belief; the outdated node wins the resolution
and is forced back to `active`. -/
def c4_final : PyResult Graph :=
  pyBind c4_g1 (fun g => add_belief 10 g "n" "E" "P" 2 (1/2) "s" "active" true)

/-- C4 witness graph for the archival-step theorem. -/
def c4wg : Graph := ⟨[("o", some ⟨"E", "P", 1, 9/10, "s", "outdated", 0⟩)], [], 0⟩

/-- C5: two beliefs whose `supports` edges form a cycle `a → b → a`. -/
def cyc_graph (ca cb : ℚ) : Graph :=
  ⟨[("a", some ⟨"E", "P", 1, ca, "s", "active", 0⟩),
    ("b", some ⟨"E", "P", 2, cb, "s", "active", 0⟩)],
   [⟨"a", "b", "supports"⟩, ⟨"b", "a", "supports"⟩], 0⟩

def c6da : NodeData := ⟨"E", "P", 1, 3/4, "s", "active", 0⟩
def c6db : NodeData := ⟨"E", "P", 2, 1/2, "s", "active", 0⟩

/-- C6 witness input: two conflicting beliefs, no support edges. -/
def c6wg : Graph := ⟨[("a", some c6da), ("b", some c6db)], [], 0⟩

/-- C6 witness output: `a` wins, `b` is demoted to 0.3 and archived. -/
def c6wg2 : Graph :=
  ⟨[("a", some c6da), ("b", some ⟨"E", "P", 2, 3/10, "s", "archived", 0⟩)], [], 0⟩

/-- C7 counterexample input: `L` directly supports both `A` and `C`, and `A`
also supports `C` (two support paths from `L` to its direct child `C`). -/
def c7cg : Graph :=
  ⟨[("N", some ⟨"E", "P", 10, 1, "s", "active", 0⟩),
    ("L", some ⟨"E", "P", 20, 1/2, "s", "active", 0⟩),
    ("A", some ⟨"F", "Q", 30, 1/2, "s", "active", 0⟩),
    ("C", some ⟨"G", "R", 40, 1/2, "s", "active", 0⟩)],
   [⟨"L", "A", "supports"⟩, ⟨"L", "C", "supports"⟩, ⟨"A", "C", "supports"⟩], 0⟩

/-- C7 witness input: a simple support chain `L → A → B` plus the stronger
conflicting belief `N`. -/
def c7wg : Graph :=
  ⟨[("N", some ⟨"E", "P", 10, 1, "s", "active", 0⟩),
    ("L", some ⟨"E", "P", 20, 1/2, "s", "active", 0⟩),
    ("A", some ⟨"F", "Q", 30, 1/2, "s", "active", 0⟩),
    ("B", some ⟨"G", "R", 40, 1/2, "s", "active", 0⟩)],
   [⟨"L", "A", "supports"⟩, ⟨"A", "B", "supports"⟩], 0⟩

/-- C9 witness input: one existing conflicting belief. -/
def c9wg : Graph :=
  ⟨[("a", some ⟨"E", "P", 1, 9/10, "s", "active", 0⟩),
    ("n", some ⟨"E", "P", 2, 1/2, "s", "active", 0⟩)], [], 0⟩

/-- C10 witness input: two active beliefs tied at the maximal confidence
(insertion order `a` before `b`) plus a weaker one. -/
def c10wg : Graph :=
  ⟨[("a", some ⟨"E", "P", 5, 7/10, "s", "active", 0⟩),
    ("b", some ⟨"E", "P", 6, 7/10, "s", "active", 0⟩),
    ("c", some ⟨"E", "P", 7, 1/2, "s", "active", 0⟩)], [], 0⟩

/-- C7 data: attributes of the winning belief `N`. -/
def c7dN : NodeData := ⟨"E", "P", 10, 1, "s", "active", 0⟩

/-- C7 data: attributes of the demoted belief `L`. -/
def c7dL : NodeData := ⟨"E", "P", 20, 1/2, "s", "active", 0⟩

/-- C7 counterexample output: `C` decayed twice (0.5 → 0.45 → 0.405). -/
def c7cg2 : Graph :=
  ⟨[("N", some ⟨"E", "P", 10, 1, "s", "active", 0⟩),
    ("L", some ⟨"E", "P", 20, 3/10, "s", "archived", 0⟩),
    ("A", some ⟨"F", "Q", 30, 9/20, "s", "active", 0⟩),
    ("C", some ⟨"G", "R", 40, 81/200, "s", "active", 0⟩)],
   [⟨"L", "A", "supports"⟩, ⟨"L", "C", "supports"⟩, ⟨"A", "C", "supports"⟩], 0⟩

/-- C7 witness output: each chain member decayed exactly once. -/
def c7wg2 : Graph :=
  ⟨[("N", some ⟨"E", "P", 10, 1, "s", "active", 0⟩),
    ("L", some ⟨"E", "P", 20, 3/10, "s", "archived", 0⟩),
    ("A", some ⟨"F", "Q", 30, 9/20, "s", "active", 0⟩),
    ("B", some ⟨"G", "R", 40, 9/20, "s", "active", 0⟩)],
   [⟨"L", "A", "supports"⟩, ⟨"A", "B", "supports"⟩], 0⟩

/-- C10 witness: the candidate list of `ask("P", "E")` on `c10wg`. -/
def c10cs : List (String × NodeData) :=
  [("a", ⟨"E", "P", 5, 7/10, "s", "active", 0⟩),
   ("b", ⟨"E", "P", 6, 7/10, "s", "active", 0⟩),
   ("c", ⟨"E", "P", 7, 1/2, "s", "active", 0⟩)]

/-! Lemmas: store primitives. -/

theorem dataOf_iff_lookup (g : Graph) (nid : String) (d : NodeData) :
    dataOf g nid = some d ↔ lookupNode g nid = some (some d) := by
  unfold dataOf
  cases hc : lookupNode g nid with
  | none => simp
  | some o =>
    cases o with
    | none => simp
    | some d1 => simp

theorem find?_map_set (l : List (String × Option NodeData)) (nid : String) (d : NodeData) :
    (l.map (fun p => if p.1 = nid then (p.1, some d) else p)).find? (fun p => p.1 == nid)
      = (l.find? (fun p => p.1 == nid)).map (fun _ => (nid, some d)) := by
  induction l with
  | nil => rfl
  | cons p rest ih =>
    by_cases h : p.1 = nid
    · subst h
      simp [List.find?_cons]
    · have hb : (p.1 == nid) = false := by simp [h]
      simp only [List.map_cons, List.find?_cons, if_neg h, hb, ih]

theorem find?_map_set_other (l : List (String × Option NodeData)) (nid m : String)
    (d : NodeData) (hm : m ≠ nid) :
    (l.map (fun p => if p.1 = nid then (p.1, some d) else p)).find? (fun p => p.1 == m)
      = l.find? (fun p => p.1 == m) := by
  induction l with
  | nil => rfl
  | cons p rest ih =>
    by_cases h : p.1 = nid
    · subst h
      have hpm : (p.1 == m) = false := by
        simp only [beq_eq_false_iff_ne, ne_eq]
        exact fun hc => hm hc.symm
      simp [List.find?_cons, hpm, ih]
    · simp only [List.map_cons, List.find?_cons, if_neg h]
      cases hb : (p.1 == m) with
      | true => rfl
      | false => simp only [ih]

theorem map_fst_map_set (l : List (String × Option NodeData)) (nid : String) (d : NodeData) :
    (l.map (fun p => if p.1 = nid then (p.1, some d) else p)).map Prod.fst
      = l.map Prod.fst := by
  induction l with
  | nil => rfl
  | cons p rest ih =>
    by_cases h : p.1 = nid <;> simp [h, ih]

theorem setNodeData_nodeIds (g : Graph) (nid : String) (d : NodeData) :
    nodeIds (setNodeData g nid d) = nodeIds g :=
  map_fst_map_set g.nodes nid d

theorem setNodeData_edges (g : Graph) (nid : String) (d : NodeData) :
    (setNodeData g nid d).edges = g.edges := rfl

theorem setNodeData_clock (g : Graph) (nid : String) (d : NodeData) :
    (setNodeData g nid d).clock = g.clock := rfl

theorem lookupNode_setNodeData_self (g : Graph) (nid : String) (d : NodeData) :
    lookupNode (setNodeData g nid d) nid
      = (lookupNode g nid).map (fun _ => some d) := by
  show ((g.nodes.map (fun p => if p.1 = nid then (p.1, some d) else p)).find?
      (fun p => p.1 == nid)).map Prod.snd
    = ((g.nodes.find? (fun p => p.1 == nid)).map Prod.snd).map (fun _ => some d)
  rw [find?_map_set]
  cases g.nodes.find? (fun p => p.1 == nid) <;> rfl

theorem lookupNode_setNodeData_other (g : Graph) (nid m : String) (d : NodeData)
    (hm : m ≠ nid) :
    lookupNode (setNodeData g nid d) m = lookupNode g m := by
  show ((g.nodes.map (fun p => if p.1 = nid then (p.1, some d) else p)).find?
      (fun p => p.1 == m)).map Prod.snd
    = (g.nodes.find? (fun p => p.1 == m)).map Prod.snd
  rw [find?_map_set_other _ _ _ _ hm]

theorem dataOf_setNodeData_other (g : Graph) (nid m : String) (d : NodeData) (hm : m ≠ nid) :
    dataOf (setNodeData g nid d) m = dataOf g m := by
  unfold dataOf
  rw [lookupNode_setNodeData_other _ _ _ _ hm]

theorem dataOf_setNodeData_self (g : Graph) (nid : String) (d d0 : NodeData)
    (h : dataOf g nid = some d0) :
    dataOf (setNodeData g nid d) nid = some d := by
  have hl : lookupNode g nid = some (some d0) := (dataOf_iff_lookup g nid d0).mp h
  rw [(dataOf_iff_lookup _ nid d), lookupNode_setNodeData_self, hl]
  rfl

/-! Lemmas: setStatus. -/

theorem setStatus_nodeIds (g : Graph) (nid s : String) :
    nodeIds (setStatus g nid s) = nodeIds g := by
  unfold setStatus
  cases dataOf g nid with
  | none => rfl
  | some d => exact setNodeData_nodeIds g nid _

theorem setStatus_edges (g : Graph) (nid s : String) :
    (setStatus g nid s).edges = g.edges := by
  unfold setStatus
  cases dataOf g nid with
  | none => rfl
  | some d => rfl

theorem setStatus_clock (g : Graph) (nid s : String) :
    (setStatus g nid s).clock = g.clock := by
  unfold setStatus
  cases dataOf g nid with
  | none => rfl
  | some d => rfl

theorem dataOf_setStatus_self (g : Graph) (nid s : String) :
    dataOf (setStatus g nid s) nid
      = (dataOf g nid).map (fun d => { d with status := s }) := by
  unfold setStatus
  cases h : dataOf g nid with
  | none => simp [h]
  | some d => simp [dataOf_setNodeData_self g nid _ d h]

theorem dataOf_setStatus_other (g : Graph) (nid s m : String) (hm : m ≠ nid) :
    dataOf (setStatus g nid s) m = dataOf g m := by
  unfold setStatus
  cases dataOf g nid with
  | none => rfl
  | some d => exact dataOf_setNodeData_other g nid m _ hm

theorem epvOf_setStatus (g : Graph) (nid s m : String) :
    epvOf (setStatus g nid s) m = epvOf g m := by
  by_cases hm : m = nid
  · subst hm
    unfold epvOf
    rw [dataOf_setStatus_self]
    cases dataOf g m <;> rfl
  · unfold epvOf
    rw [dataOf_setStatus_other g nid s m hm]

theorem confOf_setStatus (g : Graph) (nid s m : String) :
    confOf (setStatus g nid s) m = confOf g m := by
  by_cases hm : m = nid
  · subst hm
    unfold confOf
    rw [dataOf_setStatus_self]
    cases dataOf g m <;> rfl
  · unfold confOf
    rw [dataOf_setStatus_other g nid s m hm]

theorem statusOf_setStatus_other (g : Graph) (nid s m : String) (hm : m ≠ nid) :
    statusOf (setStatus g nid s) m = statusOf g m := by
  unfold statusOf
  rw [dataOf_setStatus_other g nid s m hm]

theorem statusOf_setStatus_self (g : Graph) (nid s : String) (d : NodeData)
    (h : dataOf g nid = some d) :
    statusOf (setStatus g nid s) nid = some s := by
  unfold statusOf
  rw [dataOf_setStatus_self, h]
  rfl

/-! Lemmas: reduce_confidence. -/

theorem reduce_ok (g : Graph) (nid : String) (f : ℚ) (g' : Graph)
    (h : reduce_confidence g nid f = .ok g') :
    ∃ d, dataOf g nid = some d ∧
      g' = setNodeData g nid { d with confidence := pyRound3 (d.confidence * f) } := by
  unfold reduce_confidence at h
  cases hc : lookupNode g nid with
  | none => rw [hc] at h; exact absurd h (by simp)
  | some o =>
    cases o with
    | none => rw [hc] at h; exact absurd h (by simp)
    | some d =>
      rw [hc] at h
      simp only [PyResult.ok.injEq] at h
      exact ⟨d, (dataOf_iff_lookup g nid d).mpr hc, h.symm⟩

/-! Lemmas: archive_belief. -/

theorem archive_ok_cases (g : Graph) (nid : String) (g' : Graph)
    (h : archive_belief g nid = .ok g') :
    (lookupNode g nid = some none ∧ g' = g) ∨
    ∃ d, dataOf g nid = some d ∧
      ((d.status = "outdated" ∧ g' = setNodeData g nid { d with status := "archived" }) ∨
       (d.status = "archived" ∧ g' = setNodeData g nid { d with status := "shadow_history" }) ∨
       (¬(d.status = "outdated") ∧ ¬(d.status = "archived") ∧ g' = g)) := by
  unfold archive_belief at h
  split at h
  · exact absurd h (by simp)
  · next heq =>
    simp only [PyResult.ok.injEq] at h
    exact Or.inl ⟨heq, h.symm⟩
  · next d heq =>
    refine Or.inr ⟨d, (dataOf_iff_lookup g nid d).mpr heq, ?_⟩
    by_cases h1 : d.status = "outdated"
    · rw [if_pos h1] at h
      simp only [PyResult.ok.injEq] at h
      exact Or.inl ⟨h1, h.symm⟩
    · rw [if_neg h1] at h
      by_cases h2 : d.status = "archived"
      · rw [if_pos h2] at h
        simp only [PyResult.ok.injEq] at h
        exact Or.inr (Or.inl ⟨h2, h.symm⟩)
      · rw [if_neg h2] at h
        simp only [PyResult.ok.injEq] at h
        exact Or.inr (Or.inr ⟨h1, h2, h.symm⟩)

theorem archive_statusOf_self (g : Graph) (nid : String) (g' : Graph)
    (h : archive_belief g nid = .ok g') :
    statusOf g' nid = stepForward (statusOf g nid) := by
  rcases archive_ok_cases g nid g' h with ⟨hb, rfl⟩ | ⟨d, hd, hcase⟩
  · unfold statusOf dataOf
    rw [hb]
    rfl
  · rcases hcase with ⟨h1, rfl⟩ | ⟨h2, rfl⟩ | ⟨h1, h2, rfl⟩
    · unfold statusOf
      rw [dataOf_setNodeData_self _ _ _ d hd, hd]
      simp only [Option.map_some']
      rw [h1]
      rfl
    · unfold statusOf
      rw [dataOf_setNodeData_self _ _ _ d hd, hd]
      simp only [Option.map_some']
      rw [h2]
      rfl
    · unfold statusOf stepForward
      rw [hd]
      simp only [Option.map_some']
      split
      · next heq => exact absurd (by simpa using heq) h1
      · next heq => exact absurd (by simpa using heq) h2
      · rfl

theorem archive_dataOf_other (g : Graph) (nid : String) (g' : Graph) (m : String)
    (h : archive_belief g nid = .ok g') (hm : m ≠ nid) :
    dataOf g' m = dataOf g m := by
  rcases archive_ok_cases g nid g' h with ⟨_, rfl⟩ | ⟨d, hd, hcase⟩
  · rfl
  · rcases hcase with ⟨_, rfl⟩ | ⟨_, rfl⟩ | ⟨_, _, rfl⟩ <;>
      first
        | exact dataOf_setNodeData_other _ _ _ _ hm
        | rfl

theorem archive_frame (g : Graph) (nid : String) (g' : Graph)
    (h : archive_belief g nid = .ok g') :
    nodeIds g' = nodeIds g ∧ g'.edges = g.edges ∧ g'.clock = g.clock := by
  rcases archive_ok_cases g nid g' h with ⟨_, rfl⟩ | ⟨d, hd, hcase⟩
  · exact ⟨rfl, rfl, rfl⟩
  · rcases hcase with ⟨_, rfl⟩ | ⟨_, rfl⟩ | ⟨_, _, rfl⟩ <;>
      first
        | exact ⟨setNodeData_nodeIds _ _ _, rfl, rfl⟩
        | exact ⟨rfl, rfl, rfl⟩

theorem archive_epvOf (g : Graph) (nid : String) (g' : Graph) (m : String)
    (h : archive_belief g nid = .ok g') :
    epvOf g' m = epvOf g m := by
  by_cases hm : m = nid
  · subst hm
    rcases archive_ok_cases _ m g' h with ⟨_, rfl⟩ | ⟨d, hd, hcase⟩
    · rfl
    · rcases hcase with ⟨_, rfl⟩ | ⟨_, rfl⟩ | ⟨_, _, rfl⟩ <;>
        simp [epvOf, dataOf_setNodeData_self _ _ _ d hd, hd]
  · unfold epvOf
    rw [archive_dataOf_other _ nid g' m h hm]

theorem archive_confOf (g : Graph) (nid : String) (g' : Graph) (m : String)
    (h : archive_belief g nid = .ok g') :
    confOf g' m = confOf g m := by
  by_cases hm : m = nid
  · subst hm
    rcases archive_ok_cases _ m g' h with ⟨_, rfl⟩ | ⟨d, hd, hcase⟩
    · rfl
    · rcases hcase with ⟨_, rfl⟩ | ⟨_, rfl⟩ | ⟨_, _, rfl⟩ <;>
        simp [confOf, dataOf_setNodeData_self _ _ _ d hd, hd]
  · unfold confOf
    rw [archive_dataOf_other _ nid g' m h hm]

theorem archive_of_active (g : Graph) (nid : String) (d : NodeData)
    (hd : dataOf g nid = some d) (hs : d.status = "active") :
    archive_belief g nid = .ok g := by
  unfold archive_belief
  rw [(dataOf_iff_lookup g nid d).mp hd]
  simp [hs]

/-! Lemmas: node membership, ensureNode and pyAddEdge. -/

theorem hasNode_iff_mem (g : Graph) (nid : String) :
    hasNode g nid = true ↔ nid ∈ nodeIds g := by
  simp [hasNode, nodeIds, List.any_eq_true, List.mem_map, beq_iff_eq]

theorem ensureNode_of_has (g : Graph) (nid : String) (h : hasNode g nid = true) :
    ensureNode g nid = g := by
  unfold ensureNode
  rw [if_pos h]

theorem ensureNode_clock (g : Graph) (nid : String) :
    (ensureNode g nid).clock = g.clock := by
  unfold ensureNode
  split <;> rfl

theorem ensureNode_edges (g : Graph) (nid : String) :
    (ensureNode g nid).edges = g.edges := by
  unfold ensureNode
  split <;> rfl

theorem dataOf_cons_bare (l : List (String × Option NodeData)) (E : List Edge) (c : Nat)
    (w m : String) :
    dataOf ⟨l ++ [(w, none)], E, c⟩ m = dataOf ⟨l, E, c⟩ m := by
  unfold dataOf lookupNode
  simp only [List.find?_append]
  cases hf : l.find? (fun p => p.1 == m) with
  | some p => rfl
  | none =>
    simp only [Option.none_or]
    cases hw : (List.find? (fun p => p.1 == m) [(w, none)]) with
    | none => rfl
    | some p =>
      have : p = (w, none) := by
        have := List.mem_of_find?_eq_some hw
        simpa using this
      rw [this]
      rfl

theorem dataOf_ensureNode (g : Graph) (nid m : String) :
    dataOf (ensureNode g nid) m = dataOf g m := by
  unfold ensureNode
  split
  · rfl
  · exact dataOf_cons_bare g.nodes g.edges g.clock nid m

theorem dataOf_edges_irrel (n : List (String × Option NodeData)) (E E' : List Edge)
    (c c' : Nat) (m : String) :
    dataOf ⟨n, E, c⟩ m = dataOf ⟨n, E', c'⟩ m := rfl

theorem dataOf_pyAddEdge (g : Graph) (u v rel m : String) :
    dataOf (pyAddEdge g u v rel) m = dataOf g m := by
  have he : dataOf (ensureNode (ensureNode g u) v) m = dataOf g m := by
    rw [dataOf_ensureNode, dataOf_ensureNode]
  simp only [pyAddEdge]
  split
  · exact he
  · exact he

theorem pyAddEdge_nodes_of_has (g : Graph) (u v rel : String)
    (hu : hasNode g u = true) (hv : hasNode g v = true) :
    (pyAddEdge g u v rel).nodes = g.nodes := by
  simp only [pyAddEdge, ensureNode_of_has g u hu, ensureNode_of_has g v hv]
  split <;> rfl

theorem pyAddEdge_clock (g : Graph) (u v rel : String) :
    (pyAddEdge g u v rel).clock = g.clock := by
  simp only [pyAddEdge]
  split <;> simp [ensureNode_clock]

/-! Lemmas: supports-paths and decay composition. -/

theorem suppReach_prepend (E : List Edge) (a m : String) (h : SuppReachE E a m) :
    ∀ e : Edge, e ∈ E → e.relation = "supports" → e.dst = a → SuppReachE E e.src m := by
  induction h with
  | single e2 he2 hr2 =>
    intro e he hrel hd
    have h1 : SuppReachE E e.src e.dst := SuppReachE.single e he hrel
    have h2 : SuppReachE E e.src e2.src := by rw [← hd]; exact h1
    exact SuppReachE.tail e.src e2 h2 he2 hr2
  | tail a2 e2 hr hmem hrel2 ih =>
    intro e he hrel hd
    exact SuppReachE.tail e.src e2 (ih e he hrel hd) hmem hrel2

theorem suppReach_head (E : List Edge) (a m : String) (h : SuppReachE E a m) :
    ∃ e, e ∈ E ∧ e.relation = "supports" ∧ e.src = a ∧
      (e.dst = m ∨ SuppReachE E e.dst m) := by
  induction h with
  | single e he hr => exact ⟨e, he, hr, rfl, Or.inl rfl⟩
  | tail a2 e2 hr hmem hrel ih =>
    rcases ih with ⟨e, he, hrel1, hsrc, hor⟩
    refine ⟨e, he, hrel1, hsrc, Or.inr ?_⟩
    rcases hor with hd | hre
    · have h1 : SuppReachE E e2.src e2.dst := SuppReachE.single e2 hmem hrel
      rw [hd]
      exact h1
    · exact SuppReachE.tail e.dst e2 hre hmem hrel

theorem suppReach_cycle_child (E : List Edge) (x : String) (h : SuppReachE E x x) :
    ∃ e, e ∈ E ∧ e.relation = "supports" ∧ e.src = x ∧ SuppReachE E e.dst e.dst := by
  rcases suppReach_head E x x h with ⟨e, he, hr, hs, hor⟩
  refine ⟨e, he, hr, hs, ?_⟩
  rcases hor with hd | hre
  · rw [hd]
    exact h
  · have h2 : SuppReachE E e.dst e.src := by rw [hs]; exact hre
    exact SuppReachE.tail e.dst e h2 he hr

theorem decayMap_zero (d : NodeData) : decayMap 0 d = d := by
  simp [decayMap]

theorem map_decayMap_zero (o : Option NodeData) : o.map (decayMap 0) = o := by
  cases o with
  | none => rfl
  | some d => simp [decayMap_zero]

theorem decayMap_comp (k1 k2 : Nat) (d : NodeData) :
    decayMap k2 (decayMap k1 d) = decayMap (k2 + k1) d := by
  simp [decayMap, Function.iterate_add_apply]

theorem dataOf_comp_decay (o0 o1 o2 : Option NodeData) (k1 k2 : Nat)
    (h1 : o1 = o0.map (decayMap k1)) (h2 : o2 = o1.map (decayMap k2)) :
    o2 = o0.map (decayMap (k2 + k1)) := by
  subst h1
  subst h2
  cases o0 with
  | none => rfl
  | some d => simp [decayMap_comp]

/-! Lemmas: reduce_confidence frame. -/

theorem reduce_frame (g : Graph) (nid : String) (f : ℚ) (g' : Graph)
    (h : reduce_confidence g nid f = .ok g') :
    g'.edges = g.edges ∧ nodeIds g' = nodeIds g ∧ g'.clock = g.clock := by
  rcases reduce_ok g nid f g' h with ⟨d, hd, rfl⟩
  exact ⟨rfl, setNodeData_nodeIds _ _ _, rfl⟩

theorem reduce_dataOf_other (g : Graph) (nid : String) (f : ℚ) (g' : Graph) (m : String)
    (h : reduce_confidence g nid f = .ok g') (hm : m ≠ nid) :
    dataOf g' m = dataOf g m := by
  rcases reduce_ok g nid f g' h with ⟨d, hd, rfl⟩
  exact dataOf_setNodeData_other _ _ _ _ hm

theorem reduce_dataOf_self (g : Graph) (nid : String) (f : ℚ) (g' : Graph)
    (h : reduce_confidence g nid f = .ok g') :
    dataOf g' nid
      = (dataOf g nid).map (fun d => { d with confidence := pyRound3 (d.confidence * f) }) := by
  rcases reduce_ok g nid f g' h with ⟨d, hd, rfl⟩
  rw [dataOf_setNodeData_self _ _ _ d hd, hd]
  rfl

theorem reduce9_decay (g : Graph) (nid : String) (g' : Graph)
    (h : reduce_confidence g nid (9/10) = .ok g') (m : String) :
    dataOf g' m = (dataOf g m).map (decayMap (if m = nid then 1 else 0)) := by
  by_cases hm : m = nid
  · subst hm
    rw [if_pos rfl, reduce_dataOf_self g m _ g' h]
    cases dataOf g m with
    | none => rfl
    | some d => simp [decayMap, decay9]
  · rw [if_neg hm, map_decayMap_zero, reduce_dataOf_other g nid _ g' m h hm]

/-! Lemmas: propagation preservation and cycle behaviour. -/

theorem prop_children_pres (f : Nat)
    (ihf : ∀ g nid g2, propagate_effects f g nid = .ok g2 → propPres g.edges nid g g2) :
    ∀ (l : List Edge) (g g' : Graph),
      propChildren (fun a b => propagate_effects f a b) l g = .ok g' →
      propPresCh g.edges l g g' := by
  intro l
  induction l with
  | nil =>
    intro g g' h
    simp only [propChildren, PyResult.ok.injEq] at h
    subst h
    exact ⟨rfl, rfl, rfl, fun m =>
      ⟨0, (map_decayMap_zero _).symm, fun hk => absurd hk (by simp)⟩⟩
  | cons e rest ih =>
    intro g g' h
    simp only [propChildren] at h
    by_cases hr : e.relation = "supports"
    · rw [if_pos hr] at h
      cases hred : reduce_confidence g e.dst (9/10) with
      | keyError => rw [hred] at h; exact absurd h (by simp)
      | fuelOut => rw [hred] at h; exact absurd h (by simp)
      | ok g1 =>
        rw [hred] at h
        dsimp only at h
        cases hprop : propagate_effects f g1 e.dst with
        | keyError => rw [hprop] at h; exact absurd h (by simp)
        | fuelOut => rw [hprop] at h; exact absurd h (by simp)
        | ok g2 =>
          rw [hprop] at h
          dsimp only at h
          have hP := ihf g1 e.dst g2 hprop
          have hC := ih g2 g' h
          obtain ⟨hE1, hN1, hc1⟩ := reduce_frame g e.dst _ g1 hred
          obtain ⟨hE2, hN2, hc2, hdat2⟩ := hP
          obtain ⟨hE3, hN3, hc3, hdat3⟩ := hC
          have hE21 : g2.edges = g.edges := by rw [hE2, hE1]
          refine ⟨by rw [hE3, hE21], by rw [hN3, hN2, hN1], by rw [hc3, hc2, hc1], ?_⟩
          intro m
          obtain ⟨k2, hm2, hcond2⟩ := hdat2 m
          obtain ⟨k3, hm3, hcond3⟩ := hdat3 m
          have hm1 := reduce9_decay g e.dst g1 hred m
          refine ⟨k3 + (k2 + (if m = e.dst then 1 else 0)), ?_, ?_⟩
          · exact dataOf_comp_decay _ _ _ _ _ (dataOf_comp_decay _ _ _ _ _ hm1 hm2) hm3
          · intro hk
            by_cases hmd : m = e.dst
            · exact ⟨e, List.mem_cons_self e rest, hr, Or.inl hmd⟩
            · rw [if_neg hmd] at hk
              have hsplit : 0 < k3 ∨ 0 < k2 := by omega
              rcases hsplit with h3 | h2
              · rcases hcond3 h3 with ⟨e2, he2, hrel2, hor2⟩
                refine ⟨e2, List.mem_cons_of_mem e he2, hrel2, ?_⟩
                rcases hor2 with hd | hre
                · exact Or.inl hd
                · exact Or.inr (by rw [← hE21]; exact hre)
              · rcases hcond2 h2 with hre
                exact ⟨e, List.mem_cons_self e rest, hr,
                  Or.inr (by rw [← hE1]; exact hre)⟩
    · rw [if_neg hr] at h
      have hC := ih g g' h
      obtain ⟨hE3, hN3, hc3, hdat3⟩ := hC
      refine ⟨hE3, hN3, hc3, fun m => ?_⟩
      obtain ⟨k, hm, hcond⟩ := hdat3 m
      refine ⟨k, hm, fun hk => ?_⟩
      rcases hcond hk with ⟨e2, he2, hrel2, hor2⟩
      exact ⟨e2, List.mem_cons_of_mem e he2, hrel2, hor2⟩

theorem propagate_pres : ∀ (f : Nat) (g : Graph) (nid : String) (g' : Graph),
    propagate_effects f g nid = .ok g' → propPres g.edges nid g g' := by
  intro f
  induction f with
  | zero =>
    intro g nid g' h
    exact absurd h (by simp [propagate_effects])
  | succ f ihf =>
    intro g nid g' h
    simp only [propagate_effects] at h
    have hC := prop_children_pres f ihf _ g g' h
    obtain ⟨hE, hN, hc, hdat⟩ := hC
    refine ⟨hE, hN, hc, fun m => ?_⟩
    obtain ⟨k, hm, hcond⟩ := hdat m
    refine ⟨k, hm, fun hk => ?_⟩
    rcases hcond hk with ⟨e, hmem, hrel, hor⟩
    have hmem' := List.mem_filter.mp hmem
    have hsrc : e.src = nid := by simpa using hmem'.2
    rcases hor with rfl | hre
    · rw [← hsrc]
      exact SuppReachE.single e hmem'.1 hrel
    · rw [← hsrc]
      exact suppReach_prepend g.edges e.dst m hre e hmem'.1 hrel rfl

theorem prop_children_cycle (f : Nat)
    (ihf : ∀ g x, SuppReachE g.edges x x → ∀ g2, propagate_effects f g x ≠ .ok g2) :
    ∀ (l : List Edge) (g : Graph),
      (∃ e, e ∈ l ∧ e.relation = "supports" ∧ SuppReachE g.edges e.dst e.dst) →
      ∀ g', propChildren (fun a b => propagate_effects f a b) l g ≠ .ok g' := by
  intro l
  induction l with
  | nil =>
    rintro g ⟨e, he, _, _⟩ g' _
    exact absurd he (List.not_mem_nil e)
  | cons e0 rest ih =>
    rintro g ⟨e, he, hrel, hcyc⟩ g' hok
    simp only [propChildren] at hok
    by_cases hr0 : e0.relation = "supports"
    · rw [if_pos hr0] at hok
      cases hred : reduce_confidence g e0.dst (9/10) with
      | keyError => rw [hred] at hok; exact absurd hok (by simp)
      | fuelOut => rw [hred] at hok; exact absurd hok (by simp)
      | ok g1 =>
        rw [hred] at hok
        dsimp only at hok
        obtain ⟨hE1, _, _⟩ := reduce_frame g e0.dst _ g1 hred
        cases hprop : propagate_effects f g1 e0.dst with
        | keyError => rw [hprop] at hok; exact absurd hok (by simp)
        | fuelOut => rw [hprop] at hok; exact absurd hok (by simp)
        | ok g2 =>
          rcases List.mem_cons.mp he with heq | hrest
          · subst heq
            exact ihf g1 e.dst (by rw [hE1]; exact hcyc) g2 hprop
          · rw [hprop] at hok
            dsimp only at hok
            have hP := propagate_pres f g1 e0.dst g2 hprop
            have hE2 : g2.edges = g1.edges := hP.1
            exact ih g2 ⟨e, hrest, hrel, by rw [hE2, hE1]; exact hcyc⟩ g' hok
    · rw [if_neg hr0] at hok
      rcases List.mem_cons.mp he with heq | hrest
      · subst heq
        exact hr0 hrel
      · exact ih g ⟨e, hrest, hrel, hcyc⟩ g' hok

theorem propagate_cycle_not_ok : ∀ (f : Nat) (g : Graph) (x : String),
    SuppReachE g.edges x x → ∀ g', propagate_effects f g x ≠ .ok g' := by
  intro f
  induction f with
  | zero =>
    intro g x hcy g' h
    simp [propagate_effects] at h
  | succ f ihf =>
    intro g x hcy g' hok
    simp only [propagate_effects] at hok
    rcases suppReach_cycle_child g.edges x hcy with ⟨e, he, hrel, hsrc, hcd⟩
    have hmem : e ∈ g.edges.filter (fun e2 => e2.src == x) := by
      rw [List.mem_filter]
      exact ⟨he, by simp [hsrc]⟩
    exact prop_children_cycle f ihf _ g ⟨e, hmem, hrel, hcd⟩ g' hok

/-! Lemmas: projections through reduce and propagate. -/

theorem reduce_statusOf (g : Graph) (nid : String) (f : ℚ) (g' : Graph) (m : String)
    (h : reduce_confidence g nid f = .ok g') :
    statusOf g' m = statusOf g m := by
  by_cases hm : m = nid
  · subst hm
    unfold statusOf
    rw [reduce_dataOf_self g m f g' h]
    cases dataOf g m <;> rfl
  · unfold statusOf
    rw [reduce_dataOf_other g nid f g' m h hm]

theorem reduce_epvOf (g : Graph) (nid : String) (f : ℚ) (g' : Graph) (m : String)
    (h : reduce_confidence g nid f = .ok g') :
    epvOf g' m = epvOf g m := by
  by_cases hm : m = nid
  · subst hm
    unfold epvOf
    rw [reduce_dataOf_self g m f g' h]
    cases dataOf g m <;> rfl
  · unfold epvOf
    rw [reduce_dataOf_other g nid f g' m h hm]

theorem propagate_frame (f : Nat) (g : Graph) (nid : String) (g' : Graph)
    (h : propagate_effects f g nid = .ok g') :
    g'.edges = g.edges ∧ nodeIds g' = nodeIds g ∧ g'.clock = g.clock := by
  obtain ⟨hE, hN, hc, _⟩ := propagate_pres f g nid g' h
  exact ⟨hE, hN, hc⟩

theorem propagate_statusOf (f : Nat) (g : Graph) (nid : String) (g' : Graph) (m : String)
    (h : propagate_effects f g nid = .ok g') :
    statusOf g' m = statusOf g m := by
  obtain ⟨_, _, _, hdat⟩ := propagate_pres f g nid g' h
  obtain ⟨k, hm, _⟩ := hdat m
  unfold statusOf
  rw [hm]
  cases dataOf g m <;> rfl

theorem propagate_epvOf (f : Nat) (g : Graph) (nid : String) (g' : Graph) (m : String)
    (h : propagate_effects f g nid = .ok g') :
    epvOf g' m = epvOf g m := by
  obtain ⟨_, _, _, hdat⟩ := propagate_pres f g nid g' h
  obtain ⟨k, hm, _⟩ := hdat m
  unfold epvOf
  rw [hm]
  cases dataOf g m <;> rfl

theorem propagate_unreached (f : Nat) (g : Graph) (nid : String) (g' : Graph) (m : String)
    (h : propagate_effects f g nid = .ok g')
    (hnr : ¬ SuppReachE g.edges nid m) :
    dataOf g' m = dataOf g m := by
  obtain ⟨_, _, _, hdat⟩ := propagate_pres f g nid g' h
  obtain ⟨k, hm, hcond⟩ := hdat m
  cases k with
  | zero => rw [hm, map_decayMap_zero]
  | succ k0 => exact absurd (hcond (Nat.succ_pos k0)) hnr

theorem propagate_root_dataOf (f : Nat) (g : Graph) (nid : String) (g' : Graph)
    (h : propagate_effects f g nid = .ok g') :
    dataOf g' nid = dataOf g nid := by
  refine propagate_unreached f g nid g' nid h (fun hc => ?_)
  exact propagate_cycle_not_ok f g nid hc g' h

/-! Lemmas: self_correct. -/

theorem self_correct_ok (fuel : Nat) (g : Graph) (a b : String) (g' : Graph)
    (h : self_correct fuel g a b = .ok g') :
    ∃ da db g3 g4, dataOf g a = some da ∧ dataOf g b = some db ∧
      reduce_confidence
        (setStatus (setStatus g (if db.confidence ≤ da.confidence then a else b) "active")
          (if db.confidence ≤ da.confidence then b else a) "outdated")
        (if db.confidence ≤ da.confidence then b else a) (6/10) = .ok g3 ∧
      propagate_effects fuel g3 (if db.confidence ≤ da.confidence then b else a) = .ok g4 ∧
      archive_belief g4 (if db.confidence ≤ da.confidence then b else a) = .ok g' := by
  unfold self_correct at h
  cases hda : dataOf g a with
  | none => rw [hda] at h; simp at h
  | some da =>
    rw [hda] at h
    cases hdb : dataOf g b with
    | none => rw [hdb] at h; simp at h
    | some db =>
      rw [hdb] at h
      dsimp only at h
      cases hred : reduce_confidence
          (setStatus (setStatus g (if db.confidence ≤ da.confidence then a else b) "active")
            (if db.confidence ≤ da.confidence then b else a) "outdated")
          (if db.confidence ≤ da.confidence then b else a) (6/10) with
      | keyError => rw [hred] at h; simp at h
      | fuelOut => rw [hred] at h; simp at h
      | ok g3 =>
        rw [hred] at h
        dsimp only at h
        cases hprop : propagate_effects fuel g3
            (if db.confidence ≤ da.confidence then b else a) with
        | keyError => rw [hprop] at h; simp at h
        | fuelOut => rw [hprop] at h; simp at h
        | ok g4 =>
          rw [hprop] at h
          dsimp only at h
          exact ⟨da, db, g3, g4, rfl, rfl, hred, hprop, h⟩

theorem confOf_of_decay (g1 g2 : Graph) (m : String) (k : Nat)
    (h : dataOf g2 m = (dataOf g1 m).map (decayMap k)) :
    confOf g2 m = (confOf g1 m).map (fun q => decay9^[k] q) := by
  unfold confOf
  rw [h]
  cases dataOf g1 m <;> rfl

theorem self_correct_pres (fuel : Nat) (g : Graph) (a b : String) (g' : Graph)
    (h : self_correct fuel g a b = .ok g') :
    nodeIds g' = nodeIds g ∧ g'.clock = g.clock ∧
    (∀ m, epvOf g' m = epvOf g m) ∧
    (∀ m, m ≠ a → m ≠ b → statusOf g' m = statusOf g m) := by
  obtain ⟨da, db, g3, g4, hda, hdb, hred, hprop, harch⟩ := self_correct_ok fuel g a b g' h
  have hwa : (if db.confidence ≤ da.confidence then a else b) = a ∨
      (if db.confidence ≤ da.confidence then a else b) = b := by
    split <;> simp
  have hlb : (if db.confidence ≤ da.confidence then b else a) = a ∨
      (if db.confidence ≤ da.confidence then b else a) = b := by
    split <;> simp
  obtain ⟨hEr, hNr, hcr⟩ :=
    reduce_frame _ (if db.confidence ≤ da.confidence then b else a) (6/10) g3 hred
  obtain ⟨hEp, hNp, hcp⟩ :=
    propagate_frame fuel g3 (if db.confidence ≤ da.confidence then b else a) g4 hprop
  obtain ⟨hNa, hEa, hca⟩ :=
    archive_frame g4 (if db.confidence ≤ da.confidence then b else a) g' harch
  refine ⟨?_, ?_, ?_, ?_⟩
  · rw [hNa, hNp, hNr, setStatus_nodeIds, setStatus_nodeIds]
  · rw [hca, hcp, hcr, setStatus_clock, setStatus_clock]
  · intro m
    rw [archive_epvOf _ _ _ m harch, propagate_epvOf _ _ _ _ m hprop,
      reduce_epvOf _ _ _ _ m hred, epvOf_setStatus, epvOf_setStatus]
  · intro m hma hmb
    have hmw : m ≠ (if db.confidence ≤ da.confidence then a else b) := by
      rcases hwa with hc | hc <;> rw [hc] <;> assumption
    have hml : m ≠ (if db.confidence ≤ da.confidence then b else a) := by
      rcases hlb with hc | hc <;> rw [hc] <;> assumption
    have h1 : statusOf g' m = statusOf g4 m := by
      unfold statusOf
      rw [archive_dataOf_other _ _ _ m harch hml]
    rw [h1, propagate_statusOf _ _ _ _ m hprop, reduce_statusOf _ _ _ _ m hred,
      statusOf_setStatus_other _ _ _ m hml, statusOf_setStatus_other _ _ _ m hmw]

theorem sc_chain_final (fuel : Nat) (g : Graph) (w l : String) (g3 g4 g' : Graph)
    (dw dl : NodeData) (hwl : w ≠ l)
    (hdw : dataOf g w = some dw) (hdl : dataOf g l = some dl)
    (hred : reduce_confidence (setStatus (setStatus g w "active") l "outdated") l (6/10)
      = .ok g3)
    (hprop : propagate_effects fuel g3 l = .ok g4)
    (harch : archive_belief g4 l = .ok g') :
    statusOf g' w = some "active" ∧ statusOf g' l = some "archived" ∧
    confOf g' l = some (pyRound3 (dl.confidence * (6/10))) := by
  have hlw : l ≠ w := fun hc => hwl hc.symm
  have hd1l : dataOf (setStatus g w "active") l = some dl := by
    rw [dataOf_setStatus_other g w _ l hlw, hdl]
  have hd2l : dataOf (setStatus (setStatus g w "active") l "outdated") l
      = some { dl with status := "outdated" } := by
    rw [dataOf_setStatus_self, hd1l]
    rfl
  have hs2w : statusOf (setStatus (setStatus g w "active") l "outdated") w
      = some "active" := by
    rw [statusOf_setStatus_other _ l _ w hwl, statusOf_setStatus_self g w _ dw hdw]
  have hd3l : dataOf g3 l
      = some { dl with status := "outdated", confidence := pyRound3 (dl.confidence * (6/10)) } := by
    rw [reduce_dataOf_self _ l (6/10) g3 hred, hd2l]
    rfl
  have hd4l : dataOf g4 l = dataOf g3 l := propagate_root_dataOf fuel g3 l g4 hprop
  have hs4l : statusOf g4 l = some "outdated" := by
    unfold statusOf
    rw [hd4l, hd3l]
    rfl
  have hs4w : statusOf g4 w = some "active" := by
    rw [propagate_statusOf fuel g3 l g4 w hprop, reduce_statusOf _ l _ g3 w hred, hs2w]
  refine ⟨?_, ?_, ?_⟩
  · unfold statusOf
    rw [archive_dataOf_other g4 l g' w harch hwl]
    exact hs4w
  · rw [archive_statusOf_self g4 l g' harch, hs4l]
    rfl
  · rw [archive_confOf g4 l g' l harch]
    unfold confOf
    rw [hd4l, hd3l]
    rfl

theorem self_correct_final (fuel : Nat) (g : Graph) (a b : String) (g' : Graph)
    (da db : NodeData) (hab : a ≠ b)
    (hda : dataOf g a = some da) (hdb : dataOf g b = some db)
    (h : self_correct fuel g a b = .ok g') :
    statusOf g' (if db.confidence ≤ da.confidence then a else b) = some "active" ∧
    statusOf g' (if db.confidence ≤ da.confidence then b else a) = some "archived" ∧
    confOf g' (if db.confidence ≤ da.confidence then b else a)
      = some (pyRound3
          ((if db.confidence ≤ da.confidence then db else da).confidence * (6/10))) := by
  obtain ⟨da2, db2, g3, g4, hda2, hdb2, hred, hprop, harch⟩ := self_correct_ok fuel g a b g' h
  rw [hda] at hda2
  rw [hdb] at hdb2
  injection hda2 with h1
  injection hdb2 with h2
  subst h1
  subst h2
  by_cases hc : db.confidence ≤ da.confidence
  · simp only [if_pos hc] at hred hprop harch ⊢
    exact sc_chain_final fuel g a b g3 g4 g' da db hab hda hdb hred hprop harch
  · simp only [if_neg hc] at hred hprop harch ⊢
    exact sc_chain_final fuel g b a g3 g4 g' db da (fun hcc => hab hcc.symm) hdb hda
      hred hprop harch

theorem prop_children_direct (f : Nat) :
    ∀ (l : List Edge) (g g' : Graph),
      propChildren (fun a2 b2 => propagate_effects f a2 b2) l g = .ok g' →
      ∀ e, e ∈ l → e.relation = "supports" →
        ∃ k, 0 < k ∧ dataOf g' e.dst = (dataOf g e.dst).map (decayMap k) := by
  intro l
  induction l with
  | nil =>
    intro g g' h e he hrel
    exact absurd he (List.not_mem_nil e)
  | cons e0 rest ih =>
    intro g g' h e he hrel
    simp only [propChildren] at h
    by_cases hr0 : e0.relation = "supports"
    · rw [if_pos hr0] at h
      cases hred : reduce_confidence g e0.dst (9/10) with
      | keyError => rw [hred] at h; simp at h
      | fuelOut => rw [hred] at h; simp at h
      | ok g1 =>
        rw [hred] at h
        dsimp only at h
        cases hprop : propagate_effects f g1 e0.dst with
        | keyError => rw [hprop] at h; simp at h
        | fuelOut => rw [hprop] at h; simp at h
        | ok g2 =>
          rw [hprop] at h
          dsimp only at h
          obtain ⟨_, _, _, hdat2⟩ := propagate_pres f g1 e0.dst g2 hprop
          rcases List.mem_cons.mp he with heq | hrest
          · subst heq
            obtain ⟨_, _, _, hdat3⟩ := prop_children_pres f (propagate_pres f) rest g2 g' h
            have h1 : dataOf g1 e.dst = (dataOf g e.dst).map (decayMap 1) := by
              have h0 := reduce9_decay g e.dst g1 hred e.dst
              rwa [if_pos rfl] at h0
            obtain ⟨k2, hm2, _⟩ := hdat2 e.dst
            obtain ⟨k3, hm3, _⟩ := hdat3 e.dst
            refine ⟨k3 + (k2 + 1), by omega, ?_⟩
            exact dataOf_comp_decay _ _ _ _ _ (dataOf_comp_decay _ _ _ _ _ h1 hm2) hm3
          · obtain ⟨k, hk, hm⟩ := ih g2 g' h e hrest hrel
            have h1 := reduce9_decay g e0.dst g1 hred e.dst
            obtain ⟨k2, hm2, _⟩ := hdat2 e.dst
            refine ⟨k + (k2 + (if e.dst = e0.dst then 1 else 0)), by omega, ?_⟩
            exact dataOf_comp_decay _ _ _ _ _ (dataOf_comp_decay _ _ _ _ _ h1 hm2) hm
    · rw [if_neg hr0] at h
      rcases List.mem_cons.mp he with heq | hrest
      · subst heq
        exact absurd hrel hr0
      · exact ih g g' h e hrest hrel

theorem propagate_direct (f : Nat) (g : Graph) (nid : String) (g' : Graph)
    (h : propagate_effects f g nid = .ok g') :
    ∀ e, e ∈ g.edges → e.src = nid → e.relation = "supports" →
      ∃ k, 0 < k ∧ dataOf g' e.dst = (dataOf g e.dst).map (decayMap k) := by
  cases f with
  | zero => exact absurd h (by simp [propagate_effects])
  | succ f =>
    intro e he hsrc hrel
    simp only [propagate_effects] at h
    have hmem : e ∈ g.edges.filter (fun e2 => e2.src == nid) := by
      rw [List.mem_filter]
      exact ⟨he, by simp [hsrc]⟩
    exact prop_children_direct f _ g g' h e hmem hrel

theorem sc_chain_decay (fuel : Nat) (g : Graph) (w l : String) (g3 g4 g' : Graph)
    (hwl : w ≠ l)
    (hred : reduce_confidence (setStatus (setStatus g w "active") l "outdated") l (6/10)
      = .ok g3)
    (hprop : propagate_effects fuel g3 l = .ok g4)
    (harch : archive_belief g4 l = .ok g') :
    (∀ m, m ≠ l → ∃ k, confOf g' m = (confOf g m).map (fun q => decay9^[k] q)) ∧
    (∀ e, e ∈ g.edges → e.src = l → e.relation = "supports" → e.dst ≠ l →
      ∃ k, 0 < k ∧ confOf g' e.dst = (confOf g e.dst).map (fun q => decay9^[k] q)) ∧
    (∀ m, m ≠ l → ¬ SuppReachE g.edges l m → confOf g' m = confOf g m) := by
  have hE3 : g3.edges = g.edges := by
    obtain ⟨hE, _, _⟩ := reduce_frame _ l (6/10) g3 hred
    rw [hE, setStatus_edges, setStatus_edges]
  have hconf3 : ∀ m, m ≠ l → confOf g3 m = confOf g m := by
    intro m hm
    unfold confOf
    rw [reduce_dataOf_other _ l (6/10) g3 m hred hm, dataOf_setStatus_other _ l _ m hm]
    by_cases hmw : m = w
    · subst hmw
      rw [dataOf_setStatus_self]
      cases dataOf g m <;> rfl
    · rw [dataOf_setStatus_other g w _ m hmw]
  have harchc : ∀ m, confOf g' m = confOf g4 m := fun m => archive_confOf g4 l g' m harch
  obtain ⟨_, _, _, hdat⟩ := propagate_pres fuel g3 l g4 hprop
  refine ⟨?_, ?_, ?_⟩
  · intro m hm
    obtain ⟨k, hmk, _⟩ := hdat m
    refine ⟨k, ?_⟩
    rw [harchc m, confOf_of_decay g3 g4 m k hmk, hconf3 m hm]
  · intro e he hsrc hrel hdl
    have he3 : e ∈ g3.edges := by rw [hE3]; exact he
    obtain ⟨k, hk, hmk⟩ := propagate_direct fuel g3 l g4 hprop e he3 hsrc hrel
    refine ⟨k, hk, ?_⟩
    rw [harchc e.dst, confOf_of_decay g3 g4 e.dst k hmk, hconf3 e.dst hdl]
  · intro m hm hnr
    have hnr3 : ¬ SuppReachE g3.edges l m := by rw [hE3]; exact hnr
    have h4 : dataOf g4 m = dataOf g3 m := propagate_unreached fuel g3 l g4 m hprop hnr3
    rw [harchc m]
    unfold confOf
    rw [h4]
    have := hconf3 m hm
    unfold confOf at this
    exact this

/-! Lemmas: the detector processes the snapshot of matches taken at entry. -/

theorem epvOf_none_iff (g : Graph) (m : String) :
    epvOf g m = none ↔ dataOf g m = none := by
  unfold epvOf
  cases dataOf g m <;> simp

theorem lookup_isSome_iff_mem (g : Graph) (m : String) :
    (lookupNode g m).isSome = true ↔ m ∈ nodeIds g := by
  unfold lookupNode nodeIds
  have hmap : (Option.map Prod.snd (g.nodes.find? (fun p => p.1 == m))).isSome
      = (g.nodes.find? (fun p => p.1 == m)).isSome := by
    cases g.nodes.find? (fun p => p.1 == m) <;> rfl
  rw [hmap, List.find?_isSome]
  constructor
  · rintro ⟨x, hx, he⟩
    exact List.mem_map.mpr ⟨x, hx, by simpa using he⟩
  · intro hm
    rcases List.mem_map.mp hm with ⟨x, hx, he⟩
    exact ⟨x, hx, by simp [he]⟩

theorem detect_step_inv (fuel : Nat) (g g2 : Graph) (new_id nid : String)
    (hok : self_correct fuel (pyAddEdge g new_id nid "contradicts") new_id nid = .ok g2)
    (hHasN : hasNode g new_id = true) (hHasI : hasNode g nid = true) :
    nodeIds g2 = nodeIds g ∧
    (∀ m, m ≠ new_id → m ≠ nid → statusOf g2 m = statusOf g m) ∧
    (∀ m, epvOf g2 m = epvOf g m) := by
  have hnodes : (pyAddEdge g new_id nid "contradicts").nodes = g.nodes :=
    pyAddEdge_nodes_of_has g new_id nid _ hHasN hHasI
  obtain ⟨hN, hc, hepv, hst⟩ := self_correct_pres fuel _ new_id nid g2 hok
  have hid2 : nodeIds (pyAddEdge g new_id nid "contradicts") = nodeIds g := by
    unfold nodeIds
    rw [hnodes]
  have hdataE : ∀ m, dataOf (pyAddEdge g new_id nid "contradicts") m = dataOf g m :=
    fun m => dataOf_pyAddEdge g new_id nid _ m
  refine ⟨by rw [hN, hid2], ?_, ?_⟩
  · intro m h1 h2
    rw [hst m h1 h2]
    unfold statusOf
    rw [hdataE m]
  · intro m
    rw [hepv m]
    unfold epvOf
    rw [hdataE m]

theorem detect_loop_eq_snapshot (fuel : Nat) (new_id : String) :
    ∀ (l : List String) (g g0 : Graph),
      l.Nodup →
      (∀ m, m ∈ l → m ≠ new_id → statusOf g m = statusOf g0 m) →
      (∀ m, m ∈ l → m ≠ new_id → epvOf g m = epvOf g0 m) →
      epvOf g new_id = epvOf g0 new_id →
      hasNode g new_id = true →
      (∀ m, m ∈ l → hasNode g m = true) →
      detect_loop fuel new_id l g
        = detect_snapshot_loop fuel new_id
            (l.filter (fun nid => conflict_pair g0 new_id nid)) g := by
  intro l
  induction l with
  | nil => intro g g0 _ _ _ _ _ _; rfl
  | cons nid rest ih =>
    intro g g0 hnd hstI hepvI hepvN hHasN hHasAll
    have hndr : rest.Nodup := (List.nodup_cons.mp hnd).2
    have hnotmem : nid ∉ rest := (List.nodup_cons.mp hnd).1
    have ihr : ∀ g1 : Graph,
        (∀ m, m ∈ rest → m ≠ new_id → statusOf g1 m = statusOf g0 m) →
        (∀ m, m ∈ rest → m ≠ new_id → epvOf g1 m = epvOf g0 m) →
        epvOf g1 new_id = epvOf g0 new_id →
        hasNode g1 new_id = true →
        (∀ m, m ∈ rest → hasNode g1 m = true) →
        detect_loop fuel new_id rest g1
          = detect_snapshot_loop fuel new_id
              (rest.filter (fun nid2 => conflict_pair g0 new_id nid2)) g1 :=
      fun g1 a1 a2 a3 a4 a5 => ih g1 g0 hndr a1 a2 a3 a4 a5
    have ihsame : detect_loop fuel new_id rest g
        = detect_snapshot_loop fuel new_id
            (rest.filter (fun nid2 => conflict_pair g0 new_id nid2)) g :=
      ihr g (fun m hm => hstI m (List.mem_cons_of_mem _ hm))
        (fun m hm => hepvI m (List.mem_cons_of_mem _ hm)) hepvN hHasN
        (fun m hm => hHasAll m (List.mem_cons_of_mem _ hm))
    by_cases hne : nid = new_id
    · subst hne
      have hcp : conflict_pair g0 nid nid = false := by
        unfold conflict_pair
        cases dataOf g0 nid <;> simp
      simp only [detect_loop, if_pos rfl, List.filter_cons, hcp]
      simpa using ihsame
    · have hmem0 : nid ∈ nid :: rest := List.mem_cons_self nid rest
      have hstn := hstI nid hmem0 hne
      have hepvn := hepvI nid hmem0 hne
      simp only [detect_loop, if_neg hne]
      cases hd : dataOf g nid with
      | none =>
        have hd0 : dataOf g0 nid = none := by
          rw [← epvOf_none_iff, ← hepvn, epvOf_none_iff]
          exact hd
        have hcp : conflict_pair g0 new_id nid = false := by
          unfold conflict_pair
          rw [hd0]
        cases hdn : dataOf g new_id with
        | none =>
          simp only [List.filter_cons, hcp]
          simpa using ihsame
        | some dn =>
          simp only [List.filter_cons, hcp]
          simpa using ihsame
      | some d =>
        cases hdn : dataOf g new_id with
        | none =>
          have hdn0 : dataOf g0 new_id = none := by
            rw [← epvOf_none_iff, ← hepvN, epvOf_none_iff]
            exact hdn
          have hcp : conflict_pair g0 new_id nid = false := by
            unfold conflict_pair
            rw [hdn0]
            cases dataOf g0 nid <;> rfl
          simp only [List.filter_cons, hcp]
          simpa using ihsame
        | some dn =>
          dsimp only
          have hd0ex : ∃ d0, dataOf g0 nid = some d0 := by
            cases hd0c : dataOf g0 nid with
            | none =>
              exfalso
              have h1 : epvOf g nid = none := by
                rw [hepvn, epvOf_none_iff]
                exact hd0c
              rw [epvOf_none_iff, hd] at h1
              exact absurd h1 (by simp)
            | some d0 => exact ⟨d0, rfl⟩
          obtain ⟨d0, hd0⟩ := hd0ex
          have hdn0ex : ∃ dn0, dataOf g0 new_id = some dn0 := by
            cases hdnc : dataOf g0 new_id with
            | none =>
              exfalso
              have h1 : epvOf g new_id = none := by
                rw [hepvN, epvOf_none_iff]
                exact hdnc
              rw [epvOf_none_iff, hdn] at h1
              exact absurd h1 (by simp)
            | some dn0 => exact ⟨dn0, rfl⟩
          obtain ⟨dn0, hdn0⟩ := hdn0ex
          have hsEq : d0.status = d.status := by
            have hh := hstn
            unfold statusOf at hh
            rw [hd, hd0] at hh
            simpa using hh.symm
          have hepvEq : d0.entity = d.entity ∧ d0.predicate = d.predicate ∧
              d0.value = d.value := by
            have hh := hepvn
            unfold epvOf at hh
            rw [hd, hd0] at hh
            simp only [Option.map_some', Option.some.injEq, Prod.mk.injEq] at hh
            exact ⟨hh.1.symm, hh.2.1.symm, hh.2.2.symm⟩
          have hepvnEq : dn0.entity = dn.entity ∧ dn0.predicate = dn.predicate ∧
              dn0.value = dn.value := by
            have hh := hepvN
            unfold epvOf at hh
            rw [hdn, hdn0] at hh
            simp only [Option.map_some', Option.some.injEq, Prod.mk.injEq] at hh
            exact ⟨hh.1.symm, hh.2.1.symm, hh.2.2.symm⟩
          have hcpiff : conflict_pair g0 new_id nid
              = decide ((d.status = "active" ∨ d.status = "outdated") ∧
                  d.entity = dn.entity ∧ d.predicate = dn.predicate ∧
                  ¬(d.value = dn.value)) := by
            unfold conflict_pair
            rw [hd0, hdn0]
            dsimp only
            rw [hsEq, hepvEq.1, hepvEq.2.1, hepvEq.2.2,
              hepvnEq.1, hepvnEq.2.1, hepvnEq.2.2]
            simp [hne]
          by_cases hcond : (d.status = "active" ∨ d.status = "outdated") ∧
              d.entity = dn.entity ∧ d.predicate = dn.predicate ∧ ¬(d.value = dn.value)
          · have hcp : conflict_pair g0 new_id nid = true := by
              rw [hcpiff]
              exact decide_eq_true hcond
            rw [if_pos hcond]
            simp only [List.filter_cons, hcp, if_pos]
            simp only [detect_snapshot_loop, resolve_pair]
            cases hsc : self_correct fuel (pyAddEdge g new_id nid "contradicts")
                new_id nid with
            | keyError => rfl
            | fuelOut => rfl
            | ok g2 =>
              obtain ⟨hN2, hst2, hepv2⟩ :=
                detect_step_inv fuel g g2 new_id nid hsc hHasN (hHasAll nid hmem0)
              have hHasEq : ∀ m, hasNode g2 m = hasNode g m := by
                intro m
                cases hg2 : hasNode g m with
                | true =>
                  rw [hasNode_iff_mem, hN2]
                  rw [hasNode_iff_mem] at hg2
                  exact hg2
                | false =>
                  cases hg2' : hasNode g2 m with
                  | false => rfl
                  | true =>
                    exfalso
                    rw [hasNode_iff_mem, hN2, ← hasNode_iff_mem, hg2] at hg2'
                    exact absurd hg2' (by simp)
              exact ihr g2
                (fun m hm hmne => by
                  rw [hst2 m hmne (fun hc => hnotmem (hc ▸ hm)), hstI m
                    (List.mem_cons_of_mem _ hm) hmne])
                (fun m hm hmne => by
                  rw [hepv2 m, hepvI m (List.mem_cons_of_mem _ hm) hmne])
                (by rw [hepv2 new_id, hepvN])
                (by rw [hHasEq new_id]; exact hHasN)
                (fun m hm => by rw [hHasEq m]; exact hHasAll m (List.mem_cons_of_mem _ hm))
          · have hcp : conflict_pair g0 new_id nid = false := by
              rw [hcpiff]
              exact decide_eq_false hcond
            rw [if_neg hcond]
            simp only [List.filter_cons, hcp]
            simpa using ihsame

theorem detect_eq_snapshot (fuel : Nat) (g : Graph) (new_id : String)
    (hnd : (nodeIds g).Nodup) :
    detect_and_handle_contradictions fuel g new_id = detect_snapshot fuel g new_id := by
  unfold detect_and_handle_contradictions detect_snapshot matches_at_entry
  cases hc : lookupNode g new_id with
  | none => rfl
  | some o =>
    have hHasN : hasNode g new_id = true := by
      rw [hasNode_iff_mem, ← lookup_isSome_iff_mem, hc]
      rfl
    exact detect_loop_eq_snapshot fuel new_id (nodeIds g) g g hnd
      (fun m _ _ => rfl) (fun m _ _ => rfl) rfl hHasN
      (fun m hm => (hasNode_iff_mem g m).mpr hm)

/-! Lemmas: Python max keeps the first maximum (query tie-break). -/

theorem le_foldl_max (l : List ℚ) (a : ℚ) : a ≤ l.foldl max a := by
  induction l generalizing a with
  | nil => exact le_refl a
  | cons x l ih => exact le_trans (le_max_left a x) (ih (max a x))

theorem pyMaxBy_first_max {α : Type} (f : α → ℚ) :
    ∀ (t : List α) (b : α),
      (b :: t).find? (fun x => decide ((t.map f).foldl max (f b) ≤ f x))
        = some (pyMaxBy f b t) := by
  intro t
  induction t with
  | nil =>
    intro b
    simp [List.find?_cons, pyMaxBy]
  | cons x t' ih =>
    intro b
    by_cases hlt : f b < f x
    · have hmax : max (f b) (f x) = f x := max_eq_right (le_of_lt hlt)
      have hM : ((x :: t').map f).foldl max (f b) = (t'.map f).foldl max (f x) := by
        simp [List.foldl_cons, hmax]
      have hnb : ¬(((x :: t').map f).foldl max (f b) ≤ f b) := by
        rw [hM]
        intro hc
        have := le_trans (le_foldl_max (t'.map f) (f x)) hc
        exact absurd (lt_of_lt_of_le hlt this) (lt_irrefl (f b))
      have hstep : pyMaxBy f b (x :: t') = pyMaxBy f x t' := by
        simp [pyMaxBy, if_pos hlt]
      rw [hstep]
      have := ih x
      rw [List.find?_cons]
      have hb : (decide (((x :: t').map f).foldl max (f b) ≤ f b)) = false :=
        decide_eq_false hnb
      rw [hb]
      rw [show (fun y => decide (((x :: t').map f).foldl max (f b) ≤ f y))
          = (fun y => decide ((t'.map f).foldl max (f x) ≤ f y)) from by
        funext y
        rw [hM]]
      exact this
    · have hxb : f x ≤ f b := le_of_not_lt hlt
      have hmax : max (f b) (f x) = f b := max_eq_left hxb
      have hM : ((x :: t').map f).foldl max (f b) = (t'.map f).foldl max (f b) := by
        simp [List.foldl_cons, hmax]
      have hstep : pyMaxBy f b (x :: t') = pyMaxBy f b t' := by
        simp [pyMaxBy, if_neg hlt]
      rw [hstep]
      have hprev := ih b
      rw [List.find?_cons] at hprev
      rw [List.find?_cons]
      cases hb : decide (((x :: t').map f).foldl max (f b) ≤ f b) with
      | true =>
        have hb' : decide ((t'.map f).foldl max (f b) ≤ f b) = true := by
          rw [← hM]
          exact hb
        rw [hb'] at hprev
        exact hprev
      | false =>
        have hb' : decide ((t'.map f).foldl max (f b) ≤ f b) = false := by
          rw [← hM]
          exact hb
        rw [hb'] at hprev
        have hbf : ¬(((x :: t').map f).foldl max (f b) ≤ f b) := by
          intro hc
          exact absurd (decide_eq_true hc) (by rw [hb]; simp)
        have hx : decide (((x :: t').map f).foldl max (f b) ≤ f x) = false := by
          apply decide_eq_false
          intro hc
          apply hbf
          exact le_trans hc hxb
        rw [List.find?_cons, hx]
        rw [show (fun y => decide (((x :: t').map f).foldl max (f b) ≤ f y))
            = (fun y => decide ((t'.map f).foldl max (f b) ≤ f y)) from by
          funext y
          rw [hM]]
        exact hprev

/-! Lemmas: reliability. -/

theorem filterMap_cluster (entity predicate : String) :
    ∀ l : List (String × Option NodeData),
      (l.filterMap (fun p =>
        match p.2 with
        | some d => if d.entity = entity ∧ d.predicate = predicate then some d else none
        | none => none))
      = (l.filterMap (fun p =>
          match p.2 with
          | some d => if d.entity = entity ∧ d.predicate = predicate
              then some (p.1, d) else none
          | none => none)).map Prod.snd := by
  intro l
  induction l with
  | nil => rfl
  | cons q rest ih =>
    cases hq : q.2 with
    | none => simp [List.filterMap_cons, hq, ih]
    | some d =>
      by_cases hc : d.entity = entity ∧ d.predicate = predicate
      · simp [List.filterMap_cons, hq, hc, ih]
      · simp [List.filterMap_cons, hq, hc, ih]

theorem compute_reliability_spec (g : Graph) (entity predicate : String) :
    compute_reliability g entity predicate = reliability_spec g entity predicate := by
  have hmap := filterMap_cluster entity predicate g.nodes
  unfold compute_reliability reliability_spec cluster_of
  rw [hmap]
  cases hsrc : g.nodes.filterMap (fun p =>
      match p.2 with
      | some d => if d.entity = entity ∧ d.predicate = predicate
          then some (p.1, d) else none
      | none => none) with
  | nil => rfl
  | cons c cs =>
    dsimp only
    rw [if_neg (by simp)]
    have hconf : (((c :: cs).map Prod.snd).filter
          (fun d => d.status == "active")).map NodeData.confidence
        = (((c :: cs).filter (fun p => p.2.status == "active")).map
            (fun p => p.2.confidence)) := by
      rw [List.filter_map, List.map_map]
      rfl
    have hval : ((c :: cs).map Prod.snd).map NodeData.value
        = (c :: cs).map (fun p => p.2.value) := by
      rw [List.map_map]
      rfl
    rw [hconf, hval]
    have hcd : ((c :: cs).map (fun p => p.2.value)).toFinset.card
        = ((c :: cs).map (fun p => p.2.value)).dedup.length := List.card_toFinset _
    have hn1 : 1 ≤ ((c :: cs).map (fun p => p.2.value)).dedup.length := by
      rw [← hcd]
      exact Finset.card_pos.mpr ⟨c.2.value, by simp⟩
    have hcast : ((max 0 ((((c :: cs).map (fun p => p.2.value)).dedup.length : ℤ) - 1)
          : ℤ) : ℚ)
        = ((((c :: cs).map (fun p => p.2.value)).dedup.length - 1 : ℕ) : ℚ) := by
      rw [max_eq_right (by omega :
        (0 : ℤ) ≤ (((c :: cs).map (fun p => p.2.value)).dedup.length : ℤ) - 1)]
      rw [Nat.cast_sub hn1]
      push_cast
      ring
    rw [hcd, hcast]
    cases hac : (((c :: cs).filter (fun p => p.2.status == "active")).map
        (fun p => p.2.confidence)) with
    | nil => rfl
    | cons a rest => rfl

/-! Lemmas: overwriting adds and support-edge creation. -/

theorem dataOf_setNodeData_of_has (g : Graph) (nid : String) (d : NodeData)
    (h : hasNode g nid = true) :
    dataOf (setNodeData g nid d) nid = some d := by
  have hs : (lookupNode g nid).isSome = true := by
    rw [lookup_isSome_iff_mem]
    exact (hasNode_iff_mem g nid).mp h
  unfold dataOf
  rw [lookupNode_setNodeData_self]
  cases hc : lookupNode g nid with
  | none => rw [hc] at hs; exact absurd hs (by simp)
  | some o => rfl

theorem add_belief_overwrite (fuel : Nat) (g : Graph) (nid e p : String) (v : Int)
    (c : ℚ) (src st : String) (hHas : hasNode g nid = true) :
    ∃ g', add_belief fuel g nid e p v c src st false = .ok g' ∧
      nodeIds g' = nodeIds g ∧
      dataOf g' nid = some ⟨e, p, v, c, src, st, g.clock⟩ ∧
      (∀ m, m ≠ nid → dataOf g' m = dataOf g m) ∧
      g'.edges = g.edges := by
  have hpn : pyAddNode g nid ⟨e, p, v, c, src, st, g.clock⟩
      = setNodeData g nid ⟨e, p, v, c, src, st, g.clock⟩ := by
    unfold pyAddNode setNodeData
    rw [if_pos hHas]
  have hni : nodeIds ({ pyAddNode g nid ⟨e, p, v, c, src, st, g.clock⟩
      with clock := g.clock + 1 }) = nodeIds (pyAddNode g nid ⟨e, p, v, c, src, st, g.clock⟩) :=
    rfl
  have hdi : ∀ m, dataOf ({ pyAddNode g nid ⟨e, p, v, c, src, st, g.clock⟩
      with clock := g.clock + 1 }) m = dataOf (pyAddNode g nid ⟨e, p, v, c, src, st, g.clock⟩) m :=
    fun m => rfl
  refine ⟨_, rfl, ?_, ?_, ?_, ?_⟩
  · rw [hni, hpn]
    exact setNodeData_nodeIds g nid _
  · rw [hdi nid, hpn]
    exact dataOf_setNodeData_of_has g nid _ hHas
  · intro m hm
    rw [hdi m, hpn]
    exact dataOf_setNodeData_other g nid m _ hm
  · rw [show ({ pyAddNode g nid ⟨e, p, v, c, src, st, g.clock⟩
        with clock := g.clock + 1 } : Graph).edges
      = (pyAddNode g nid ⟨e, p, v, c, src, st, g.clock⟩).edges from rfl, hpn]
    rfl

theorem hasNode_ensureNode_self (g : Graph) (nid : String) :
    hasNode (ensureNode g nid) nid = true := by
  unfold ensureNode
  split
  · next h => exact h
  · unfold hasNode
    rw [List.any_append]
    simp

theorem hasNode_ensureNode_mono (g : Graph) (nid m : String) (h : hasNode g m = true) :
    hasNode (ensureNode g nid) m = true := by
  unfold ensureNode
  split
  · exact h
  · unfold hasNode at h ⊢
    rw [List.any_append, h]
    rfl

theorem hasNode_pyAddEdge (g : Graph) (u v rel m : String) :
    hasNode (pyAddEdge g u v rel) m = hasNode (ensureNode (ensureNode g u) v) m := by
  simp only [pyAddEdge]
  split <;> rfl

theorem pyAddEdge_has_src (g : Graph) (u v rel : String) :
    hasNode (pyAddEdge g u v rel) u = true := by
  rw [hasNode_pyAddEdge]
  exact hasNode_ensureNode_mono _ v u (hasNode_ensureNode_self g u)

theorem pyAddEdge_has_dst (g : Graph) (u v rel : String) :
    hasNode (pyAddEdge g u v rel) v = true := by
  rw [hasNode_pyAddEdge]
  exact hasNode_ensureNode_self (ensureNode g u) v

theorem pyAddEdge_has_mono (g : Graph) (u v rel m : String) (h : hasNode g m = true) :
    hasNode (pyAddEdge g u v rel) m = true := by
  rw [hasNode_pyAddEdge]
  exact hasNode_ensureNode_mono _ v m (hasNode_ensureNode_mono g u m h)

theorem find?_map_setEdge (E : List Edge) (u v rel : String) :
    (E.map (fun e => if e.src = u ∧ e.dst = v then { e with relation := rel } else e)).find?
        (fun e => e.src == u && e.dst == v)
      = (E.find? (fun e => e.src == u && e.dst == v)).map
          (fun e => { e with relation := rel }) := by
  induction E with
  | nil => rfl
  | cons e E ih =>
    by_cases hc : e.src = u ∧ e.dst = v
    · have hb : (e.src == u && e.dst == v) = true := by simp [hc.1, hc.2]
      simp only [List.map_cons, List.find?_cons, if_pos hc]
      rw [show (({ e with relation := rel } : Edge).src == u
          && ({ e with relation := rel } : Edge).dst == v) = true from hb]
      rfl
    · have hbt : ((e.src == u && e.dst == v) = true) ↔ (e.src = u ∧ e.dst = v) := by
        simp
      have hb : (e.src == u && e.dst == v) = false := by
        cases hx : (e.src == u && e.dst == v) with
        | false => rfl
        | true => exact absurd (hbt.mp hx) hc
      simp only [List.map_cons, List.find?_cons, if_neg hc, hb, ih]

theorem hasEdge_false_of_not (g1 : Graph) (u v : String)
    (h : ¬(hasEdge g1 u v = true)) : hasEdge g1 u v = false := by
  cases hb : hasEdge g1 u v with
  | false => rfl
  | true => exact absurd hb h

theorem edgeRel_pyAddEdge_self (g : Graph) (u v rel : String) :
    edgeRel (pyAddEdge g u v rel) u v = some rel := by
  unfold edgeRel
  simp only [pyAddEdge]
  split
  · next h =>
    dsimp only
    rw [find?_map_setEdge]
    unfold hasEdge at h
    rw [List.any_eq_true] at h
    rcases h with ⟨e0, he0, hp0⟩
    cases hf : (ensureNode (ensureNode g u) v).edges.find?
        (fun e => e.src == u && e.dst == v) with
    | none =>
      rw [List.find?_eq_none] at hf
      exact absurd hp0 (hf e0 he0)
    | some e1 => rfl
  · next h =>
    dsimp only
    have hfalse := hasEdge_false_of_not _ u v h
    have hall : (ensureNode (ensureNode g u) v).edges.find?
        (fun e => e.src == u && e.dst == v) = none := by
      rw [List.find?_eq_none]
      intro x hx hp
      unfold hasEdge at hfalse
      rw [List.any_eq_false] at hfalse
      exact (hfalse x hx) hp
    rw [List.find?_append, hall]
    simp [List.find?_cons]

theorem filter_map_setEdge (E : List Edge) (u v rel : String) :
    (E.map (fun e => if e.src = u ∧ e.dst = v then { e with relation := rel } else e)).filter
        (fun e => !(e.src == u && e.dst == v))
      = E.filter (fun e => !(e.src == u && e.dst == v)) := by
  induction E with
  | nil => rfl
  | cons e E ih =>
    by_cases hc : e.src = u ∧ e.dst = v
    · have hb : (e.src == u && e.dst == v) = true := by simp [hc.1, hc.2]
      simp only [List.map_cons, List.filter_cons, if_pos hc]
      rw [show (!(({ e with relation := rel } : Edge).src == u
          && ({ e with relation := rel } : Edge).dst == v)) = false from by rw [hb]; rfl]
      simpa using ih
    · have hbt : ((e.src == u && e.dst == v) = true) ↔ (e.src = u ∧ e.dst = v) := by
        simp
      have hb : (e.src == u && e.dst == v) = false := by
        cases hx : (e.src == u && e.dst == v) with
        | false => rfl
        | true => exact absurd (hbt.mp hx) hc
      simp only [List.map_cons, List.filter_cons, if_neg hc]
      rw [show (!(e.src == u && e.dst == v)) = true from by rw [hb]; rfl]
      rw [if_pos rfl, if_pos rfl, ih]

theorem pyAddEdge_other_edges (g : Graph) (u v rel : String) :
    (pyAddEdge g u v rel).edges.filter (fun e => !(e.src == u && e.dst == v))
      = g.edges.filter (fun e => !(e.src == u && e.dst == v)) := by
  have hE : (ensureNode (ensureNode g u) v).edges = g.edges := by
    rw [ensureNode_edges, ensureNode_edges]
  simp only [pyAddEdge]
  split
  · dsimp only
    rw [hE, filter_map_setEdge]
  · dsimp only
    rw [hE, List.filter_append]
    simp

/-! Claim theorems. -/

/-- C1 counterexample: in the scenario (add `p1` = price(Flight123)=218 at
confidence 0.82, then `p2` = price(Flight123)=347 at confidence 0.95 with
auto-check), `p1` does not end with status `outdated` as the claim states:
the resolver archives the loser before returning, so `p1` ends `archived`. -/
theorem c1_scenario_p1_not_outdated :
    ¬(resStatus c1_final "p1" = some "outdated") ∧
    resStatus c1_final "p1" = some "archived" := by
  with_unfolding_all decide

/-- C1 amended: in the same scenario, after the second add returns, `p2` is
`active`, `p1` is `archived` (one archival step past `outdated`), `p1`'s
confidence equals `round(0.82 * 0.6, 3) = 0.492`, and
`ask("price", "Flight123")` returns 347. -/
theorem c1_scenario_amended :
    resStatus c1_final "p2" = some "active" ∧
    resStatus c1_final "p1" = some "archived" ∧
    resConf c1_final "p1" = some (pyRound3 ((41/50) * (6/10))) ∧
    pyRound3 ((41/50) * (6/10)) = 492/1000 ∧
    resAsk c1_final "price" "Flight123" = .ok (some 347) := by
  with_unfolding_all decide

/-- C2 counterexample: adding a second belief with the already-used id `x`
is not rejected — the call returns normally — and the store is changed in
place: node `x`'s entity is overwritten from `E` to `E2`. -/
theorem c2_duplicate_not_rejected :
    ¬(c2_final = .keyError) ∧ ¬(c2_final = .fuelOut) ∧
    resEntity c2_g1 "x" = some "E" ∧ resEntity c2_final "x" = some "E2" := by
  with_unfolding_all decide

/-- C2 amended: `add_belief` with an id already in the store does not fail;
it overwrites the existing node's attributes in place (same node order,
other nodes' data and all edges unchanged), after which auto-check would
run as usual. -/
theorem c2_overwrite_amended (fuel : Nat) (g : Graph) (nid e p : String) (v : Int)
    (c : ℚ) (src st : String) (hHas : hasNode g nid = true) :
    ∃ g', add_belief fuel g nid e p v c src st false = .ok g' ∧
      nodeIds g' = nodeIds g ∧
      dataOf g' nid = some ⟨e, p, v, c, src, st, g.clock⟩ ∧
      (∀ m, m ≠ nid → dataOf g' m = dataOf g m) ∧
      g'.edges = g.edges :=
  add_belief_overwrite fuel g nid e p v c src st hHas

/-- C2 witness: the amended overwrite behaviour at a concrete store. -/
theorem c2_overwrite_witness :
    hasNode (⟨[("x", some ⟨"E", "P", 1, 1/2, "s", "active", 0⟩)], [], 0⟩ : Graph) "x"
      = true ∧
    ∃ g', add_belief 5 (⟨[("x", some ⟨"E", "P", 1, 1/2, "s", "active", 0⟩)], [], 0⟩ : Graph)
        "x" "E2" "P2" 2 (3/4) "s2" "active" false = .ok g' ∧
      nodeIds g' = nodeIds (⟨[("x", some ⟨"E", "P", 1, 1/2, "s", "active", 0⟩)], [], 0⟩ : Graph) ∧
      dataOf g' "x" = some ⟨"E2", "P2", 2, 3/4, "s2", "active", 0⟩ ∧
      (∀ m, m ≠ "x" → dataOf g' m
        = dataOf (⟨[("x", some ⟨"E", "P", 1, 1/2, "s", "active", 0⟩)], [], 0⟩ : Graph) m) ∧
      g'.edges = (⟨[("x", some ⟨"E", "P", 1, 1/2, "s", "active", 0⟩)], [], 0⟩ : Graph).edges :=
  ⟨by with_unfolding_all decide,
    c2_overwrite_amended 5 ⟨[("x", some ⟨"E", "P", 1, 1/2, "s", "active", 0⟩)], [], 0⟩
      "x" "E2" "P2" 2 (3/4) "s2" "active" (by with_unfolding_all decide)⟩

/-- C3 counterexample: `add_support_edge` between two absent ids raises no
error (it is a total operation) and mutates the store: both endpoints are
silently created as attribute-less nodes and the `supports` edge is added,
where the claim demanded an `UnknownNodeError` with the store unchanged. -/
theorem c3_missing_ids_no_error :
    lookupNode c3_g "a" = some none ∧ lookupNode c3_g "b" = some none ∧
    c3_g.edges = [⟨"a", "b", "supports"⟩] := by
  with_unfolding_all decide

/-- C3 amended: `add_support_edge` never fails: missing endpoints are
silently created as attribute-less nodes, a `supports` edge from parent to
child is recorded (overwriting the relation of an existing parent→child
edge), every node's attributes are untouched, and every other edge is
untouched. -/
theorem c3_support_edge_amended (g : Graph) (parent child : String) :
    hasNode (add_support_edge g parent child) parent = true ∧
    hasNode (add_support_edge g parent child) child = true ∧
    edgeRel (add_support_edge g parent child) parent child = some "supports" ∧
    (∀ m, dataOf (add_support_edge g parent child) m = dataOf g m) ∧
    (add_support_edge g parent child).edges.filter
        (fun e => !(e.src == parent && e.dst == child))
      = g.edges.filter (fun e => !(e.src == parent && e.dst == child)) :=
  ⟨pyAddEdge_has_src g parent child "supports",
   pyAddEdge_has_dst g parent child "supports",
   edgeRel_pyAddEdge_self g parent child "supports",
   fun m => dataOf_pyAddEdge g parent child "supports" m,
   pyAddEdge_other_edges g parent child "supports"⟩

/-- C4 counterexample: a node whose status is `outdated` is moved back to
`active` by a later engine operation: after `add_belief "o" ... status
"outdated"`, adding a weaker conflicting belief `n` makes `o` win the
resolution, and the resolver forces the winner's status to `active`. -/
theorem c4_status_regression :
    resStatus c4_g1 "o" = some "outdated" ∧
    resStatus c4_final "o" = some "active" := by
  with_unfolding_all decide

/-- C4 amended: the archival call alone is monotone — it advances a node's
status exactly one lifecycle step (`outdated → archived → shadow_history`),
leaves an `active` node's store untouched, and changes nothing else — but
the full lifecycle is not monotone, because the resolver forces a winning
node back to `active` even from `outdated` (see the counterexample). -/
theorem c4_archive_monotone (g : Graph) (nid : String) (g' : Graph)
    (h : archive_belief g nid = .ok g') :
    statusOf g' nid = stepForward (statusOf g nid) ∧
    (statusOf g nid = some "active" → g' = g) ∧
    (∀ m, m ≠ nid → dataOf g' m = dataOf g m) ∧
    nodeIds g' = nodeIds g ∧ g'.edges = g.edges := by
  refine ⟨archive_statusOf_self g nid g' h, ?_,
    fun m hm => archive_dataOf_other g nid g' m h hm,
    (archive_frame g nid g' h).1, (archive_frame g nid g' h).2.1⟩
  intro hs
  unfold statusOf at hs
  cases hd : dataOf g nid with
  | none => rw [hd] at hs; exact absurd hs (by simp)
  | some d =>
    rw [hd] at hs
    simp only [Option.map_some', Option.some.injEq] at hs
    have hok := archive_of_active g nid d hd hs
    rw [h] at hok
    simp only [PyResult.ok.injEq] at hok
    exact hok

/-- C4 witness: one archival step on a concrete outdated node. -/
theorem c4_archive_witness :
    archive_belief c4wg "o"
        = .ok (⟨[("o", some ⟨"E", "P", 1, 9/10, "s", "archived", 0⟩)], [], 0⟩ : Graph) ∧
    (statusOf (⟨[("o", some ⟨"E", "P", 1, 9/10, "s", "archived", 0⟩)], [], 0⟩ : Graph) "o"
        = stepForward (statusOf c4wg "o") ∧
      (statusOf c4wg "o" = some "active" →
        (⟨[("o", some ⟨"E", "P", 1, 9/10, "s", "archived", 0⟩)], [], 0⟩ : Graph) = c4wg) ∧
      (∀ m, m ≠ "o" →
        dataOf (⟨[("o", some ⟨"E", "P", 1, 9/10, "s", "archived", 0⟩)], [], 0⟩ : Graph) m
          = dataOf c4wg m) ∧
      nodeIds (⟨[("o", some ⟨"E", "P", 1, 9/10, "s", "archived", 0⟩)], [], 0⟩ : Graph)
        = nodeIds c4wg ∧
      (⟨[("o", some ⟨"E", "P", 1, 9/10, "s", "archived", 0⟩)], [], 0⟩ : Graph).edges
        = c4wg.edges) :=
  ⟨by with_unfolding_all decide,
    c4_archive_monotone c4wg "o" ⟨[("o", some ⟨"E", "P", 1, 9/10, "s", "archived", 0⟩)], [], 0⟩
      (by with_unfolding_all decide)⟩

/-- C5: the code does not terminate on a cyclic support graph.  On the
two-node store with `supports` edges `a → b` and `b → a`, a propagation
call from either node exhausts every fuel bound — the Python recursion of
`propagate_effects` never returns, where the claim (and the spec's intent)
requires termination bounded by graph size. -/
theorem c5_cycle_diverges : ∀ (f : Nat) (ca cb : ℚ),
    propagate_effects f (cyc_graph ca cb) "a" = .fuelOut ∧
    propagate_effects f (cyc_graph ca cb) "b" = .fuelOut := by
  intro f
  induction f with
  | zero => intro ca cb; exact ⟨rfl, rfl⟩
  | succ f ih =>
    intro ca cb
    constructor
    · have hb := (ih ca (pyRound3 (cb * (9/10)))).2
      simp only [propagate_effects]
      have hfil : (cyc_graph ca cb).edges.filter (fun e => e.src == "a")
          = [⟨"a", "b", "supports"⟩] := rfl
      rw [hfil]
      simp only [propChildren, if_true]
      have hred : reduce_confidence (cyc_graph ca cb) "b" (9/10)
          = .ok (cyc_graph ca (pyRound3 (cb * (9/10)))) := rfl
      rw [hred]
      dsimp only
      rw [hb]
    · have ha := (ih (pyRound3 (ca * (9/10))) cb).1
      simp only [propagate_effects]
      have hfil : (cyc_graph ca cb).edges.filter (fun e => e.src == "b")
          = [⟨"b", "a", "supports"⟩] := rfl
      rw [hfil]
      simp only [propChildren, if_true]
      have hred : reduce_confidence (cyc_graph ca cb) "a" (9/10)
          = .ok (cyc_graph (pyRound3 (ca * (9/10))) cb) := rfl
      rw [hred]
      dsimp only
      rw [ha]

/-- C6: for a conflicting pair (new_node, old_node), the node with
confidence ≥ the other's wins (ties favour new_node, which is compared
first), the winner's status ends `active`, the loser's status is demoted
to `outdated`, decayed by `round(old * 0.6, 3)`, and then advanced exactly
one lifecycle step to `archived`. -/
theorem c6_resolver (fuel : Nat) (g : Graph) (new_node old_node : String) (g' : Graph)
    (dn dold : NodeData) (hab : new_node ≠ old_node)
    (hdn : dataOf g new_node = some dn) (hdold : dataOf g old_node = some dold)
    (h : self_correct fuel g new_node old_node = .ok g') :
    statusOf g' (if dold.confidence ≤ dn.confidence then new_node else old_node)
      = some "active" ∧
    statusOf g' (if dold.confidence ≤ dn.confidence then old_node else new_node)
      = some "archived" ∧
    confOf g' (if dold.confidence ≤ dn.confidence then old_node else new_node)
      = some (pyRound3
          ((if dold.confidence ≤ dn.confidence then dold else dn).confidence * (6/10))) :=
  self_correct_final fuel g new_node old_node g' dn dold hab hdn hdold h

/-- C6 witness: the resolver at a concrete conflicting pair. -/
theorem c6_resolver_witness :
    (("a" : String) ≠ "b") ∧ dataOf c6wg "a" = some c6da ∧ dataOf c6wg "b" = some c6db ∧
    self_correct 5 c6wg "a" "b" = .ok c6wg2 ∧
    (statusOf c6wg2 (if c6db.confidence ≤ c6da.confidence then "a" else "b")
        = some "active" ∧
      statusOf c6wg2 (if c6db.confidence ≤ c6da.confidence then "b" else "a")
        = some "archived" ∧
      confOf c6wg2 (if c6db.confidence ≤ c6da.confidence then "b" else "a")
        = some (pyRound3
            ((if c6db.confidence ≤ c6da.confidence then c6db else c6da).confidence
              * (6/10)))) :=
  ⟨by decide, by with_unfolding_all decide, by with_unfolding_all decide,
   by with_unfolding_all decide,
   c6_resolver 5 c6wg "a" "b" c6wg2 c6da c6db (by decide)
     (by with_unfolding_all decide) (by with_unfolding_all decide)
     (by with_unfolding_all decide)⟩

/-- C7 counterexample: the demoted node `L` supports its direct child `C`
both directly and through `A`, so `C` is decayed once per support path:
its confidence becomes `round(round(0.5*0.9,3)*0.9,3) = 0.405`, not
`round(0.5*0.9,3) = 0.45` as the claim states for a direct child. -/
theorem c7_double_decay :
    self_correct 10 c7cg "N" "L" = .ok c7cg2 ∧
    edgeRel c7cg "L" "C" = some "supports" ∧
    confOf c7cg "C" = some (1/2) ∧
    confOf c7cg2 "C" = some (pyRound3 (pyRound3 ((1/2) * (9/10)) * (9/10))) ∧
    ¬(confOf c7cg2 "C" = some (pyRound3 ((1/2) * (9/10)))) := by
  with_unfolding_all decide

/-- C7 amended: when a node is demoted its confidence becomes
`round(old*0.6,3)`; propagation applies `round(old*0.9,3)` once per
traversal, so every node's confidence change is some number of iterated
0.9-decays, each direct support-child of the demoted node is decayed at
least once (exactly once when the direct edge is its only support path,
but once per path in general, as the counterexample shows), and a node
not reachable from the demoted node along `supports` edges — in
particular anything connected only by `contradicts` edges — keeps its
confidence unchanged. -/
theorem c7_decay (fuel : Nat) (g : Graph) (new_node old_node : String) (g' : Graph)
    (dn dold : NodeData) (hab : new_node ≠ old_node)
    (hdn : dataOf g new_node = some dn) (hdold : dataOf g old_node = some dold)
    (h : self_correct fuel g new_node old_node = .ok g') :
    confOf g' (if dold.confidence ≤ dn.confidence then old_node else new_node)
      = some (pyRound3
          ((if dold.confidence ≤ dn.confidence then dold else dn).confidence * (6/10))) ∧
    (∀ m, m ≠ (if dold.confidence ≤ dn.confidence then old_node else new_node) →
      ∃ k, confOf g' m = (confOf g m).map (fun q => decay9^[k] q)) ∧
    (∀ e, e ∈ g.edges →
      e.src = (if dold.confidence ≤ dn.confidence then old_node else new_node) →
      e.relation = "supports" →
      e.dst ≠ (if dold.confidence ≤ dn.confidence then old_node else new_node) →
      ∃ k, 0 < k ∧ confOf g' e.dst = (confOf g e.dst).map (fun q => decay9^[k] q)) ∧
    (∀ m, m ≠ (if dold.confidence ≤ dn.confidence then old_node else new_node) →
      ¬ SuppReachE g.edges
          (if dold.confidence ≤ dn.confidence then old_node else new_node) m →
      confOf g' m = confOf g m) := by
  obtain ⟨da2, db2, g3, g4, hda2, hdb2, hred, hprop, harch⟩ :=
    self_correct_ok fuel g new_node old_node g' h
  rw [hdn] at hda2
  rw [hdold] at hdb2
  injection hda2 with h1
  injection hdb2 with h2
  subst h1
  subst h2
  by_cases hc : dold.confidence ≤ dn.confidence
  · simp only [if_pos hc] at hred hprop harch ⊢
    have h1 := sc_chain_final fuel g new_node old_node g3 g4 g' dn dold hab hdn hdold
      hred hprop harch
    have h2 := sc_chain_decay fuel g new_node old_node g3 g4 g' hab hred hprop harch
    exact ⟨h1.2.2, h2.1, h2.2.1, h2.2.2⟩
  · simp only [if_neg hc] at hred hprop harch ⊢
    have h1 := sc_chain_final fuel g old_node new_node g3 g4 g' dold dn
      (fun hcc => hab hcc.symm) hdold hdn hred hprop harch
    have h2 := sc_chain_decay fuel g old_node new_node g3 g4 g'
      (fun hcc => hab hcc.symm) hred hprop harch
    exact ⟨h1.2.2, h2.1, h2.2.1, h2.2.2⟩

/-- C7 witness: the amended decay behaviour on a concrete support chain. -/
theorem c7_decay_witness :
    (("N" : String) ≠ "L") ∧
    dataOf c7wg "N" = some c7dN ∧ dataOf c7wg "L" = some c7dL ∧
    self_correct 10 c7wg "N" "L" = .ok c7wg2 ∧
    (confOf c7wg2 (if c7dL.confidence ≤ c7dN.confidence then "L" else "N")
        = some (pyRound3
            ((if c7dL.confidence ≤ c7dN.confidence then c7dL else c7dN).confidence
              * (6/10))) ∧
      (∀ m, m ≠ (if c7dL.confidence ≤ c7dN.confidence then "L" else "N") →
        ∃ k, confOf c7wg2 m = (confOf c7wg m).map (fun q => decay9^[k] q)) ∧
      (∀ e, e ∈ c7wg.edges →
        e.src = (if c7dL.confidence ≤ c7dN.confidence then "L" else "N") →
        e.relation = "supports" →
        e.dst ≠ (if c7dL.confidence ≤ c7dN.confidence then "L" else "N") →
        ∃ k, 0 < k ∧ confOf c7wg2 e.dst = (confOf c7wg e.dst).map (fun q => decay9^[k] q)) ∧
      (∀ m, m ≠ (if c7dL.confidence ≤ c7dN.confidence then "L" else "N") →
        ¬ SuppReachE c7wg.edges
            (if c7dL.confidence ≤ c7dN.confidence then "L" else "N") m →
        confOf c7wg2 m = confOf c7wg m)) :=
  ⟨by decide, by with_unfolding_all decide, by with_unfolding_all decide,
   by with_unfolding_all decide,
   c7_decay 10 c7wg "N" "L" c7wg2 c7dN c7dL (by decide)
     (by with_unfolding_all decide) (by with_unfolding_all decide)
     (by with_unfolding_all decide)⟩

/-- C8: computeReliability returns none exactly when no node matches the
(entity, predicate) pair in any status, and otherwise returns
`round(maxActiveConfidence / (1 + 0.3*contradictions), 3)` with
`maxActiveConfidence` the maximal confidence of matching active nodes
(0.0 when none) and `contradictions = max(0, distinctValues - 1)` over
the whole cluster. -/
theorem c8_reliability (g : Graph) (entity predicate : String) :
    compute_reliability g entity predicate = reliability_spec g entity predicate ∧
    (compute_reliability g entity predicate = none ↔
      cluster_of g entity predicate = []) := by
  refine ⟨compute_reliability_spec g entity predicate, ?_⟩
  rw [compute_reliability_spec g entity predicate]
  unfold reliability_spec
  by_cases hc : cluster_of g entity predicate = []
  · simp [hc]
  · simp [hc]

/-- C9: for a store without duplicate ids, the detector is exactly the
snapshot semantics: it records a contradicts edge for, and resolves,
precisely the nodes that at entry are active or outdated with equal
entity, equal predicate and a different value — once each, in store
order — and mid-call status changes neither add nor remove matches. -/
theorem c9_detector_snapshot (fuel : Nat) (g : Graph) (new_id : String)
    (hnd : (nodeIds g).Nodup) :
    detect_and_handle_contradictions fuel g new_id = detect_snapshot fuel g new_id :=
  detect_eq_snapshot fuel g new_id hnd

/-- C9 witness: the equivalence at a concrete two-node store. -/
theorem c9_detector_snapshot_witness :
    (nodeIds c9wg).Nodup ∧
    detect_and_handle_contradictions 10 c9wg "n" = detect_snapshot 10 c9wg "n" :=
  ⟨by decide, c9_detector_snapshot 10 c9wg "n" (by decide)⟩

/-- C10: when the active candidates for (entity, predicate) include two or
more nodes tied at the maximal confidence, ask returns the value of the
earliest-inserted of them: Python's max keeps the first maximum of the
store's insertion order. -/
theorem c10_ask_tie (g : Graph) (predicate entity : String)
    (cs : List (String × NodeData))
    (hcands : ask_candidates entity predicate g.nodes = .ok cs)
    (htie : 2 ≤ (cs.filter (fun q => decide (maxConfC cs ≤ q.2.confidence))).length) :
    ask g predicate entity = .ok ((first_max_candidate cs).map (fun q => q.2.value)) := by
  unfold ask
  rw [hcands]
  cases cs with
  | nil => simp at htie
  | cons c cs' =>
    dsimp only
    have hmc : maxConfC (c :: cs')
        = (cs'.map (fun q => q.2.confidence)).foldl max (c.2.confidence) := rfl
    have hfm : first_max_candidate (c :: cs')
        = some (pyMaxBy (fun q => q.2.confidence) c cs') := by
      unfold first_max_candidate
      simp only [hmc]
      exact pyMaxBy_first_max (fun q => q.2.confidence) cs' c
    rw [hfm]
    rfl

/-- C10 witness: two tied maximal candidates; ask returns the earlier one. -/
theorem c10_ask_tie_witness :
    ask_candidates "E" "P" c10wg.nodes = .ok c10cs ∧
    2 ≤ (c10cs.filter (fun q => decide (maxConfC c10cs ≤ q.2.confidence))).length ∧
    ask c10wg "P" "E" = .ok ((first_max_candidate c10cs).map (fun q => q.2.value)) :=
  ⟨by with_unfolding_all decide, by with_unfolding_all decide,
   c10_ask_tie c10wg "P" "E" c10cs (by with_unfolding_all decide)
     (by with_unfolding_all decide)⟩
